import Mathlib

/-!
Verification of `csnades-scraper.mjs` (tickinterval/csnades-scraper).

Strings are modelled as `List Char` (`Str`); each definition is a direct
translation of the corresponding JavaScript function in the single source
file, keeping its name.  Source line numbers are given in the comments.
-/

abbrev Str := List Char

/-! ### String unescaper — `decodeJsEscapedString`, source lines 52-58

The source does
  `const safe = maybeEscaped.replace(/\\/g, "\\\\").replace(/"/g, '\\"');`
  `return JSON.parse(`"${safe}"`);`
The two global replaces are the passes `escBackslash` and `escQuote`; the
`JSON.parse` of a double-quoted literal is `jsonStringBody`, which decodes
the JSON string grammar and fails (models the thrown SyntaxError) on a raw
control character, an unterminated or unknown escape, or an early
unescaped quote (which would leave trailing garbage after the literal).
-/

def escBackslash : Str → Str
  | [] => []
  | c :: r => if c = '\\' then '\\' :: '\\' :: escBackslash r else c :: escBackslash r

def escQuote : Str → Str
  | [] => []
  | c :: r => if c = '"' then '\\' :: '"' :: escQuote r else c :: escQuote r

def jsonEscChar (e : Char) : Option Char :=
  if e = '"' then some '"'
  else if e = '\\' then some '\\'
  else if e = '/' then some '/'
  else if e = 'b' then some (Char.ofNat 0x08)
  else if e = 'f' then some (Char.ofNat 0x0C)
  else if e = 'n' then some '\n'
  else if e = 'r' then some (Char.ofNat 0x0D)
  else if e = 't' then some '\t'
  else none

def hexVal (c : Char) : Option Nat :=
  if '0' ≤ c ∧ c ≤ '9' then some (c.toNat - '0'.toNat)
  else if 'a' ≤ c ∧ c ≤ 'f' then some (c.toNat - 'a'.toNat + 10)
  else if 'A' ≤ c ∧ c ≤ 'F' then some (c.toNat - 'A'.toNat + 10)
  else none

/-- Decoder for the body of a JSON string literal (the behaviour of
`JSON.parse` on `"body"`).  `\uXXXX` is mapped through `Char.ofNat`
(surrogate code units are not representable in `Char`; this branch is
unreachable for the pre-escaped inputs produced by the source, where every
backslash is doubled). -/
def jsonStringBody : Str → Option Str
  | [] => some []
  | '\\' :: 'u' :: h1 :: h2 :: h3 :: h4 :: rest =>
    match hexVal h1, hexVal h2, hexVal h3, hexVal h4 with
    | some a, some b, some c2, some d =>
      (Char.ofNat (((a * 16 + b) * 16 + c2) * 16 + d) :: ·) <$> jsonStringBody rest
    | _, _, _, _ => none
  | '\\' :: e :: rest =>
    match jsonEscChar e with
    | some d => (d :: ·) <$> jsonStringBody rest
    | none => none
  | ['\\'] => none
  | c :: rest =>
    if c = '"' then none
    else if c.toNat < 0x20 then none
    else (c :: ·) <$> jsonStringBody rest

/-- Source lines 52-58.  `none` models the SyntaxError thrown by
`JSON.parse`. -/
def decodeJsEscapedString (maybeEscaped : Str) : Option Str :=
  jsonStringBody (escQuote (escBackslash maybeEscaped))

/-- Spec-side construction for claim C3: the escaping convention the
source website applies to an embedded value, replacing a newline by the
two characters `\n` and a double quote by the two characters `\"`. -/
def escapeLikeSource : Str → Str
  | [] => []
  | c :: r =>
    if c = '\n' then '\\' :: 'n' :: escapeLikeSource r
    else if c = '"' then '\\' :: '"' :: escapeLikeSource r
    else c :: escapeLikeSource r


/-! ### Generic text matching helpers

The source locates fields with `String.prototype.indexOf` and anchored
regular expressions whose character classes all exclude the backslash, so
every regex used is deterministic: it is a literal, a maximal
character-class run, or an ordered alternation.  `stripLit` consumes an
exact literal, `scanFirst` tries a matcher at every start position from
the left (the scan loop of `match`/`indexOf`). -/

def stripLit : Str → Str → Option Str
  | [], s => some s
  | _ :: _, [] => none
  | p :: ps, c :: cs => if c = p then stripLit ps cs else none

def leadsWithB (p s : Str) : Bool := (stripLit p s).isSome

def scanFirst (f : Str → Option α) : Str → Option α
  | [] => f []
  | c :: rest =>
    match f (c :: rest) with
    | some x => some x
    | none => scanFirst f rest

/-- The two-character sequence backslash-quote, written `\"` in the page. -/
def bqStr : Str := ['\\', '"']

/-! ### Console extraction — `extractConsoleFromNadeHtml`, source lines 124-128

The regex is `/\\"console\\":\\"(.*?)\\"/s`: the literal `\"console\":\"`,
then a lazy capture (any character, including newlines, up to the first
following `\"`).  The decode of the capture may throw, and the source has
no try/catch around it, so the function's result is modelled as `Except`:
`error` is the escaping JavaScript exception.  The exception message text
is platform-specific; a fixed token stands for it. -/

def consolePat : Str :=
  ['\\', '"', 'c', 'o', 'n', 's', 'o', 'l', 'e', '\\', '"', ':', '\\', '"']

def takeUntilBq : Str → Option Str
  | [] => none
  | c :: rest =>
    if leadsWithB bqStr (c :: rest) then some []
    else (c :: ·) <$> takeUntilBq rest

def consoleAt (s : Str) : Option Str := (stripLit consolePat s).bind takeUntilBq

def jsonParseErrorMsg : Str := ['S', 'y', 'n', 't', 'a', 'x', 'E', 'r', 'r', 'o', 'r']

def extractConsoleFromNadeHtml (html : Str) : Except Str (Option Str) :=
  match scanFirst consoleAt html with
  | none => Except.ok none
  | some frag =>
    match decodeJsEscapedString frag with
    | some v => Except.ok (some v)
    | none => Except.error jsonParseErrorMsg

/-! ### `typeToPath`, source lines 60-73 -/

def typeToPath (ty : Str) : Option Str :=
  if ty = ['s', 'm', 'o', 'k', 'e'] then some ['s', 'm', 'o', 'k', 'e', 's']
  else if ty = ['m', 'o', 'l', 'o', 't', 'o', 'v'] then
    some ['m', 'o', 'l', 'o', 't', 'o', 'v', 's']
  else if ty = ['f', 'l', 'a', 's', 'h', 'b', 'a', 'n', 'g'] then
    some ['f', 'l', 'a', 's', 'h', 'b', 'a', 'n', 'g', 's']
  else if ty = ['h', 'e'] then some ['h', 'e', 's']
  else none

/-! ### Data model -/

/-- A discovery-pass record (the object built on source lines 104-111). -/
structure Nade where
  id : Str
  slug : Str
  type : Str
  team : Option Str
  titleFrom : Option Str
  titleTo : Option Str
deriving DecidableEq, Repr

/-- A per-job result (the objects built on source lines 195 and 204).
The unknown-type result has no `url` field; the success result has
`error: null`. -/
structure NadeResult where
  nade : Nade
  console : Option Str
  error : Option Str
  url : Option Str
deriving DecidableEq, Repr

/-! ### The per-item job and its aggregation, source lines 191-207

The body of `limiter(async () => ...)`: an unknown type short-circuits to
an in-band error result before any fetch; otherwise the job awaits
`fetchText` (modelled by the `fetched` argument, `error` being a rejected
fetch) and then runs the console extraction, whose exception — like the
fetch rejection — escapes the job body, because the source has no per-job
try/catch.  `encodeURIComponent` is modelled as the identity (none of the
verified claims concern percent-encoding).  `runAll` is `Promise.all`
over the limiter promises: it resolves with the values in submission
order only if every job resolved, and rejects if any job rejected (which
rejection wins is timing-dependent in JavaScript; the model takes the
first in submission order — the claims only depend on rejection
happening). -/

def unknownTypeMsg (ty : Str) : Str :=
  ['U', 'n', 'k', 'n', 'o', 'w', 'n', ' ', 't', 'y', 'p', 'e', ':', ' '] ++ ty

def mkNadeUrl (baseUrl mapSlug typePath slug : Str) : Str :=
  baseUrl ++ '/' :: mapSlug ++ '/' :: typePath ++ '/' :: slug

def nadeJob (baseUrl mapSlug : Str) (fetched : Except Str Str) (nade : Nade) :
    Except Str NadeResult :=
  match typeToPath nade.type with
  | none => Except.ok ⟨nade, none, some (unknownTypeMsg nade.type), none⟩
  | some typePath =>
    match fetched with
    | Except.error e => Except.error e
    | Except.ok html =>
      match extractConsoleFromNadeHtml html with
      | Except.error e => Except.error e
      | Except.ok consoleText =>
        Except.ok ⟨nade, consoleText, none,
          some (mkNadeUrl baseUrl mapSlug typePath nade.slug)⟩

def runAll : List (Except Str NadeResult) → Except Str (List NadeResult)
  | [] => Except.ok []
  | j :: rest =>
    match j with
    | Except.error e => Except.error e
    | Except.ok v =>
      match runAll rest with
      | Except.error e => Except.error e
      | Except.ok vs => Except.ok (v :: vs)

/-! ### Concrete data for the counterexamples -/

def demoBase : Str := ['b']

def demoMap : Str := ['m']

def demoNadeA : Nade :=
  ⟨['n', 'a', 'd', 'e', '_', '1'], ['a'], ['s', 'm', 'o', 'k', 'e'], some ['t'], none, none⟩

def demoNadeB : Nade :=
  ⟨['n', 'a', 'd', 'e', '_', '2'], ['c'], ['s', 'm', 'o', 'k', 'e'], none, none, none⟩

/-- A detail page whose console value is well-formed. -/
def c1GoodHtml : Str :=
  consolePat ++ ['s', 'e', 't', 'p', 'o', 's', ' ', '1'] ++ bqStr

def c1HttpErr : Str := ['H', 'T', 'T', 'P', ' ', '5', '0', '0']

/-- A detail page whose captured console fragment contains a raw newline,
so `JSON.parse` throws inside `decodeJsEscapedString`. -/
def c2BadHtml : Str := consolePat ++ ['a', '\n', 'b'] ++ bqStr


/-! ### Bounded concurrency scheduler — `pLimit`, source lines 130-158

The limiter keeps a FIFO `queue` of submitted job thunks and an `active`
counter.  `next` admits the queue head when `active < limit`;
`limiter(fn)` pushes a wrapper and calls `next`; when an admitted job
settles, `active` is decremented and `next` is called again.  The model
is a state machine: `running` lists the indices of admitted, unsettled
jobs (its length is `active`), `settled` the indices in settlement
order.  The event-loop nondeterminism of which running job settles first
is the `choices` argument of `runSched` (an index into `running` per
step).  Job outcomes never influence scheduling: the source swallows the
wrapped job's rejection (`.catch(() => {})`) and reacts only in
`.finally`. -/

namespace PLimit

structure SchedState where
  queue : List Nat
  running : List Nat
  settled : List Nat
deriving DecidableEq, Repr

/-- The `next` closure, source lines 134-145. -/
def next (limit : Nat) (s : SchedState) : SchedState :=
  if limit ≤ s.running.length then s
  else
    match s.queue with
    | [] => s
    | j :: q => ⟨q, s.running ++ [j], s.settled⟩

/-- Submission of one job, source lines 147-157: push, then `next()`. -/
def submit (limit : Nat) (s : SchedState) (j : Nat) : SchedState :=
  next limit ⟨s.queue ++ [j], s.running, s.settled⟩

/-- `main` submits all jobs synchronously in order (source line 192). -/
def submitAll (limit n : Nat) : SchedState :=
  (List.range n).foldl (submit limit) ⟨[], [], []⟩

/-- Settlement of the `k`-th running job, source lines 139-144:
`active--` then `next()`. -/
def settle (limit : Nat) (s : SchedState) (k : Nat) : SchedState :=
  match s.running.get? k with
  | none => s
  | some j => next limit ⟨s.queue, s.running.eraseIdx k, s.settled ++ [j]⟩

/-- Submission of jobs `0..n-1` followed by the given settlement events. -/
def runSched (limit n : Nat) (choices : List Nat) : SchedState :=
  choices.foldl (settle limit) (submitAll limit n)

/-- Every state the scheduler passes through: one per submission and one
per settlement event (`List.scanl` keeps the intermediate states). -/
def schedTrace (limit n : Nat) (choices : List Nat) : List SchedState :=
  (List.range n).scanl (submit limit) ⟨[], [], []⟩ ++
    choices.scanl (settle limit) (submitAll limit n)

/-- `Promise.all` correlates each settled outcome back to its submission
slot: slot `i` of the aggregated sequence carries the outcome `f i` of
job `i` once job `i` has settled, regardless of where `i` appears in the
settlement order. -/
def aggregate (settledOrder : List Nat) (f : Nat → α) (n : Nat) : List (Option α) :=
  (List.range n).map fun i => List.lookup i (settledOrder.map fun j => (j, f j))

/-- All job indices held anywhere in the scheduler state. -/
def allJobs (s : SchedState) : List Nat := s.queue ++ s.running ++ s.settled

end PLimit


/-! ### Deduplication — source lines 114-121

`extractNadesFromMapHtml` ends with a single filter pass over the parsed
records: a `Set` of seen composite keys `type + ":" + slug`, a record
being kept only when its key is new.  The growing set is modelled by the
`seen` accumulator of `dedupeGo`. -/

def dedupeKey (n : Nade) : Str := n.type ++ ':' :: n.slug

def dedupeGo (seen : List Str) : List Nade → List Nade
  | [] => []
  | n :: rest =>
    if dedupeKey n ∈ seen then dedupeGo seen rest
    else n :: dedupeGo (dedupeKey n :: seen) rest

def dedupe (l : List Nade) : List Nade := dedupeGo [] l


/-! ### Renderer — `sanitizeComment` (source lines 160-162) and the
output loop of `main` (source lines 209-241)

`sanitizeComment` is `(s ?? "").replace(/\s+/g, " ").trim()`; `isJsWs` is
the JavaScript `\s` class (ASCII whitespace, NBSP, BOM and the Unicode
space separators).  The command-narrowing regex on source line 234 is
`/setpos [^;\\r\\n]+;setang [^\\r\\n]+/i`: inside a regex character
class `\\` denotes an escaped backslash, so the two classes exclude the
characters `;` (first class only), backslash, `r` and `n` — not CR/LF —
and the `/i` flag canonicalizes case, also excluding `R` and `N`; the
literals match case-insensitively while the matched text keeps its
original characters.  Because `;` is excluded from the first class the
greedy runs never backtrack, so the regex is equivalent to this
deterministic matcher, and `String.prototype.match` takes the leftmost
start position (`scanFirst`). -/

def isJsWs (c : Char) : Bool :=
  c == ' ' || c == '\t' || c == '\n' || c.toNat == 0x0B || c.toNat == 0x0C ||
  c == '\r' || c.toNat == 0xA0 || c.toNat == 0x1680 ||
  (decide (0x2000 ≤ c.toNat) && decide (c.toNat ≤ 0x200A)) ||
  c.toNat == 0x2028 || c.toNat == 0x2029 || c.toNat == 0x202F ||
  c.toNat == 0x205F || c.toNat == 0x3000 || c.toNat == 0xFEFF

def collapseWsGo (prevWs : Bool) : Str → Str
  | [] => []
  | c :: rest =>
    if isJsWs c then
      if prevWs then collapseWsGo true rest
      else ' ' :: collapseWsGo true rest
    else c :: collapseWsGo false rest

/-- `replace(/\s+/g, " ")`: each maximal whitespace run becomes one
space; `prevWs` records whether the previous character was part of a
run. -/
def collapseWs (s : Str) : Str := collapseWsGo false s

def trimJs (s : Str) : Str :=
  ((s.dropWhile isJsWs).reverse.dropWhile isJsWs).reverse

def sanitizeComment (s : Option Str) : Str := trimJs (collapseWs (s.getD []))

def class1 (c : Char) : Bool :=
  !(c == ';' || c == '\\' || c == 'r' || c == 'R' || c == 'n' || c == 'N')

def class2 (c : Char) : Bool :=
  !(c == '\\' || c == 'r' || c == 'R' || c == 'n' || c == 'N')

def setposLit : Str := ['s', 'e', 't', 'p', 'o', 's', ' ']

def setangLit : Str := [';', 's', 'e', 't', 'a', 'n', 'g', ' ']

/-- Case-insensitive literal consumption returning the actually consumed
characters and the remainder. -/
def stripLitCI : Str → Str → Option (Str × Str)
  | [], s => some ([], s)
  | _ :: _, [] => none
  | p :: ps, c :: cs =>
    if c.toLower = p.toLower then
      match stripLitCI ps cs with
      | some pr => some (c :: pr.1, pr.2)
      | none => none
    else none

/-- One attempt of the narrowing regex at the start of `s`. -/
def matchPairAt (s : Str) : Option Str :=
  match stripLitCI setposLit s with
  | none => none
  | some (c1, r1) =>
    let run1 := r1.takeWhile class1
    if run1.isEmpty then none
    else
      match stripLitCI setangLit (r1.dropWhile class1) with
      | none => none
      | some (c2, r3) =>
        let run2 := r3.takeWhile class2
        if run2.isEmpty then none
        else some (c1 ++ run1 ++ c2 ++ run2)

def firstPairMatch (s : Str) : Option Str := scanFirst matchPairAt s

/-- JavaScript truthiness of `r.console` at source line 226: `null` and
the empty string are both falsy. -/
def consoleFalsy : Option Str → Bool
  | none => true
  | some s => s.isEmpty

/-- `Array.prototype.join` with a separator. -/
def joinSep (sep : Str) : List Str → Str
  | [] => []
  | [x] => x
  | x :: xs => x ++ sep ++ joinSep sep xs

def commentPre : Str := ['/', '/', ' ']

def sepBar : Str := [' ', '|', ' ']

def arrowSep : Str := [' ', '-', '>', ' ']

def missingLine : Str :=
  ['/', '/', ' ', 'M', 'I', 'S', 'S', 'I', 'N', 'G', '_', 'C', 'O', 'N', 'S', 'O', 'L', 'E']

/-- `r.nade.team ? r.nade.team.toUpperCase() : "ANY"` (source line 218);
an empty team string is falsy. -/
def teamDisp : Option Str → Str
  | some t => if t.isEmpty then ['A', 'N', 'Y'] else t.map Char.toUpper
  | none => ['A', 'N', 'Y']

/-- `titleFrom && titleTo ? `${titleFrom} -> ${titleTo}` : r.nade.slug`
(source line 219), on the already sanitized titles. -/
def titlesOrSlug (titleFrom titleTo slug : Str) : Str :=
  if !titleFrom.isEmpty && !titleTo.isEmpty then titleFrom ++ arrowSep ++ titleTo
  else slug

/-- The label of source lines 219-221: the three components, empty ones
removed by `.filter(Boolean)`, joined by `" | "`. -/
def labelOf (r : NadeResult) : Str :=
  joinSep sepBar
    (([r.nade.type, teamDisp r.nade.team,
       titlesOrSlug (sanitizeComment r.nade.titleFrom) (sanitizeComment r.nade.titleTo)
         r.nade.slug]).filter (fun p => !p.isEmpty))

/-- `if (r.url) lines.push(...)` (source line 224). -/
def urlLinesOf : Option Str → List Str
  | some u => if u.isEmpty then [] else [commentPre ++ u]
  | none => []

/-- The command line (source lines 233-235): the first narrowed
`setpos ...;setang ...` pair if one exists, else the trimmed text. -/
def cmdLineOf (c : Str) : Str :=
  match firstPairMatch c with
  | some m => m
  | none => trimJs c

/-- The block of output lines for one result, with its missing flag
(source lines 215-237). -/
def renderRecord (r : NadeResult) : List Str × Bool :=
  let headLines := (commentPre ++ labelOf r) :: urlLinesOf r.url
  if consoleFalsy r.console then (headLines ++ [missingLine, []], true)
  else (headLines ++ [cmdLineOf (r.console.getD []), []], false)

/-- The two header comment lines and blank line (source lines 210-212). -/
def renderHeader (srcLabel : Str) (total : Nat) : List Str :=
  [['/', '/', ' ', 'G', 'e', 'n', 'e', 'r', 'a', 't', 'e', 'd', ' ',
    'f', 'r', 'o', 'm', ' '] ++ srcLabel,
   ['/', '/', ' ', 'T', 'o', 't', 'a', 'l', ' ', 'n', 'a', 'd', 'e', 's',
    ':', ' '] ++ (Nat.repr total).data,
   []]

/-- The whole artifact: header, then the record blocks in order, with the
missing-console counter (source lines 209-241). -/
def renderAll (srcLabel : Str) (results : List NadeResult) : List Str × Nat :=
  results.foldl
    (fun acc r =>
      let br := renderRecord r
      (acc.1 ++ br.1, acc.2 + (if br.2 then 1 else 0)))
    (renderHeader srcLabel results.length, 0)


/-! ### Escaped-fragment extractor — `extractNadesFromMapHtml`, source
lines 75-122

The anchor literal is `\"id\":\"nade_`.  The `while` loop collects every
occurrence with `indexOf`, resuming the search after each hit
(`collectStartsAux`); the spans between consecutive starts (the final
span running to the end of the document) are the chunks.  Each per-chunk
regex is anchored on a literal containing backslashes and uses character
classes `[^\\"]` that exclude the backslash and the quote, so the greedy
runs cannot backtrack across the closing `\"`; alternations such as
`(smoke|molotov|flashbang|he)` and `(ct|t)` are tried in order, each
requiring the closing `\"` (`altAt`).  `chunk.match` takes the leftmost
matching position (`scanFirst`). -/

def notBQ (c : Char) : Bool := !(c == '\\' || c == '"')

/-- `\"id\":\"` — the field part of the anchor. -/
def idPat : Str := ['\\', '"', 'i', 'd', '\\', '"', ':', '\\', '"']

def nadePre : Str := ['n', 'a', 'd', 'e', '_']

/-- The anchor literal `\"id\":\"nade_` of source line 79. -/
def idNeedle : Str := idPat ++ nadePre

/-- `\",\"slug\":\"` — the slug must immediately follow the id field
(source line 96). -/
def slugSepPat : Str :=
  ['\\', '"', ',', '\\', '"', 's', 'l', 'u', 'g', '\\', '"', ':', '\\', '"']

/-- `\"type\":\"` (source line 97). -/
def typeFieldPat : Str := ['\\', '"', 't', 'y', 'p', 'e', '\\', '"', ':', '\\', '"']

/-- `\"team\":\"` (source line 100). -/
def teamFieldPat : Str := ['\\', '"', 't', 'e', 'a', 'm', '\\', '"', ':', '\\', '"']

/-- `\"titleFrom\":\"` (source line 101). -/
def titleFromPat : Str :=
  ['\\', '"', 't', 'i', 't', 'l', 'e', 'F', 'r', 'o', 'm', '\\', '"', ':', '\\', '"']

/-- `\"titleTo\":\"` (source line 102). -/
def titleToPat : Str :=
  ['\\', '"', 't', 'i', 't', 'l', 'e', 'T', 'o', '\\', '"', ':', '\\', '"']

/-- `([^\\"]+)\\"`: a nonempty backslash-and-quote-free run followed by
the closing `\"`, returning the captured run. -/
def runThen (s : Str) : Option Str :=
  let run := s.takeWhile notBQ
  if run.isEmpty then none
  else if leadsWithB bqStr (s.dropWhile notBQ) then some run
  else none

/-- The id regex of source line 95 tried at one position; the capture
includes the `nade_` prefix. -/
def idAt (s : Str) : Option Str :=
  match stripLit idPat s with
  | none => none
  | some r1 =>
    match stripLit nadePre r1 with
    | none => none
    | some r2 =>
      match runThen r2 with
      | none => none
      | some run => some (nadePre ++ run)

/-- The slug regex of source line 96 tried at one position. -/
def slugAt (s : Str) : Option Str :=
  match stripLit idPat s with
  | none => none
  | some r1 =>
    match stripLit nadePre r1 with
    | none => none
    | some r2 =>
      if (r2.takeWhile notBQ).isEmpty then none
      else
        match stripLit slugSepPat (r2.dropWhile notBQ) with
        | none => none
        | some r3 => runThen r3

/-- An ordered alternation, each branch requiring the closing `\"`. -/
def altAt (alts : List Str) (s : Str) : Option Str :=
  match alts with
  | [] => none
  | a :: rest =>
    match stripLit a s with
    | some r => if leadsWithB bqStr r then some a else altAt rest s
    | none => altAt rest s

def typeAlts : List Str :=
  [['s', 'm', 'o', 'k', 'e'], ['m', 'o', 'l', 'o', 't', 'o', 'v'],
   ['f', 'l', 'a', 's', 'h', 'b', 'a', 'n', 'g'], ['h', 'e']]

def teamAlts : List Str := [['c', 't'], ['t']]

def typeAt (s : Str) : Option Str :=
  match stripLit typeFieldPat s with
  | none => none
  | some r => altAt typeAlts r

def teamAt (s : Str) : Option Str :=
  match stripLit teamFieldPat s with
  | none => none
  | some r => altAt teamAlts r

def titleFromAt (s : Str) : Option Str :=
  match stripLit titleFromPat s with
  | none => none
  | some r => runThen r

def titleToAt (s : Str) : Option Str :=
  match stripLit titleToPat s with
  | none => none
  | some r => runThen r

/-- Field extraction over one span, source lines 95-111: a span lacking
id, slug or type is dropped (`none`); team and the titles are optional
(`?.[1] ?? null`). -/
def parseChunk (chunk : Str) : Option Nade :=
  match scanFirst idAt chunk, scanFirst slugAt chunk, scanFirst typeAt chunk with
  | some i, some sl, some ty =>
    some ⟨i, sl, ty, scanFirst teamAt chunk, scanFirst titleFromAt chunk,
      scanFirst titleToAt chunk⟩
  | _, _, _ => none

/-- `String.prototype.indexOf` as an offset into the list. -/
def findIdx (needle : Str) : Str → Option Nat
  | [] => if leadsWithB needle [] then some 0 else none
  | c :: rest =>
    if leadsWithB needle (c :: rest) then some 0
    else (findIdx needle rest).map (· + 1)

/-- The anchor-collecting `while` loop of source lines 80-87: each hit is
recorded and the search resumes `idNeedle.length` characters further. -/
def collectStartsAux (html : Str) (base : Nat) : List Nat :=
  match h : findIdx idNeedle html with
  | none => []
  | some i =>
    (base + i) ::
      collectStartsAux (html.drop (i + idNeedle.length)) (base + i + idNeedle.length)
termination_by html.length
decreasing_by
  have hne : html ≠ [] := by
    intro he
    rw [he] at h
    simp [findIdx, leadsWithB, idNeedle, idPat, stripLit] at h
  have hpos : 0 < html.length := List.length_pos.2 hne
  simp only [List.length_drop, idNeedle, idPat, nadePre]
  simp only [List.length_append, List.length_cons, List.length_nil]
  omega

def collectStarts (html : Str) : List Nat := collectStartsAux html 0

/-- The spans `html.slice(starts[i], starts[i+1])`, the last running to
the end of the document (source lines 90-93). -/
def chunksOf (html : Str) : List Nat → List Str
  | [] => []
  | [s] => [html.drop s]
  | s :: s2 :: rest => ((html.drop s).take (s2 - s)) :: chunksOf html (s2 :: rest)

/-- Source lines 75-122: anchor scan, per-span field extraction, then
the first-seen-wins deduplication. -/
def extractNadesFromMapHtml (html : Str) : List Nade :=
  dedupe ((chunksOf html (collectStarts html)).filterMap parseChunk)

/-- Spec-side construction for claim C9: one well-formed anchor-bounded
record carrying an id, a slug and a type, with the optional team and
title fields absent. -/
def typeSepPat : Str := ['\\', '"', ','] ++ typeFieldPat

def mkRecord (idSuf slug ty : Str) : Str :=
  idNeedle ++ (idSuf ++ (slugSepPat ++ (slug ++ (typeSepPat ++ (ty ++ bqStr)))))

/-! Evaluation of the decoder: because every backslash is doubled and
every quote escaped before parsing, the decode is the identity on inputs
without raw control characters and fails exactly when one is present. -/

theorem decode_eval (s : Str) :
    decodeJsEscapedString s =
      if s.all (fun c => 0x20 ≤ c.toNat) then some s else none := by
  induction s with
  | nil => rfl
  | cons c r ih =>
    simp only [decodeJsEscapedString] at ih ⊢
    by_cases hb : c = '\\'
    · subst hb
      rw [show escQuote (escBackslash ('\\' :: r)) = '\\' :: '\\' :: escQuote (escBackslash r)
            from by simp [escBackslash, escQuote]]
      rw [show jsonStringBody ('\\' :: '\\' :: escQuote (escBackslash r))
            = ('\\' :: ·) <$> jsonStringBody (escQuote (escBackslash r)) from rfl]
      rw [ih]
      by_cases hall : r.all (fun c => 0x20 ≤ c.toNat) <;> simp [hall]
    · by_cases hq : c = '"'
      · subst hq
        rw [show escQuote (escBackslash ('"' :: r)) = '\\' :: '"' :: escQuote (escBackslash r)
              from by simp [escBackslash, escQuote]]
        rw [show jsonStringBody ('\\' :: '"' :: escQuote (escBackslash r))
              = ('"' :: ·) <$> jsonStringBody (escQuote (escBackslash r)) from rfl]
        rw [ih]
        by_cases hall : r.all (fun c => 0x20 ≤ c.toNat) <;> simp [hall]
      · rw [show escQuote (escBackslash (c :: r)) = c :: escQuote (escBackslash r)
              from by simp [escBackslash, escQuote, hb, hq]]
        rw [show jsonStringBody (c :: escQuote (escBackslash r))
              = if c.toNat < 0x20 then none
                else (c :: ·) <$> jsonStringBody (escQuote (escBackslash r)) from by
          simp [jsonStringBody, hb, hq]]
        by_cases hc : c.toNat < 0x20
        · have hle : ¬ (0x20 ≤ c.toNat) := by omega
          simp [hc, hle]
        · have hle : (0x20 ≤ c.toNat) := by omega
          rw [if_neg hc, ih]
          by_cases hall : r.all (fun c => 0x20 ≤ c.toNat) <;> simp [hall, hle]

theorem decode_id_of_noControl {s : Str} (h : ∀ c ∈ s, 0x20 ≤ c.toNat) :
    decodeJsEscapedString s = some s := by
  rw [decode_eval]
  simp only [List.all_eq_true, decide_eq_true_eq]
  rw [if_pos h]

theorem decode_none_of_control {s : Str} (h : ∃ c ∈ s, c.toNat < 0x20) :
    decodeJsEscapedString s = none := by
  rw [decode_eval]
  obtain ⟨c, hc, hlt⟩ := h
  have : ¬ s.all (fun c => 0x20 ≤ c.toNat) = true := by
    simp only [List.all_eq_true, decide_eq_true_eq, not_forall]
    exact ⟨c, hc, by omega⟩
  rw [if_neg this]

/-- Claim C10: for every input without raw control characters (U+0000 to
U+001F), `decodeJsEscapedString` returns its input unchanged — the
pre-escaping of backslashes and quotes is exactly undone by the JSON
string decode, so a two-character sequence such as `\n` is kept literal —
and for an input containing a raw control character the decode step
fails (the `JSON.parse` call throws). -/
theorem c10_decode_identity (s : Str) :
    ((∀ c ∈ s, 0x20 ≤ c.toNat) → decodeJsEscapedString s = some s)
    ∧ ((∃ c ∈ s, c.toNat < 0x20) → decodeJsEscapedString s = none)
    ∧ decodeJsEscapedString ['\\', 'n'] = some ['\\', 'n'] := by
  refine ⟨fun h => decode_id_of_noControl h, fun h => decode_none_of_control h, ?_⟩
  decide

/-- Witness for C10 at concrete inputs: `"a\nb"` (with a literal
backslash-n) decodes to itself, and a raw newline makes the decode fail. -/
theorem c10_decode_identity_witness :
    decodeJsEscapedString ['a', '\\', 'n', 'b'] = some ['a', '\\', 'n', 'b'] ∧
    decodeJsEscapedString ['a', '\n', 'b'] = none :=
  ⟨(c10_decode_identity ['a', '\\', 'n', 'b']).1 (by decide),
   (c10_decode_identity ['a', '\n', 'b']).2.1 ⟨'\n', by decide, by decide⟩⟩

/-- Counterexample to claim C3 as stated: for `s` the one-character string
containing a newline (allowed by the claim, which covers printable
characters, quotes and newlines), `unescape(escape_like_source(s))` is the
two-character string backslash-`n`, not `s`: the decoder pre-escapes the
backslash produced by the website's escaping, so it never turns `\n` back
into a newline. -/
theorem c3_roundtrip_counterexample :
    decodeJsEscapedString (escapeLikeSource ['\n']) ≠ some ['\n'] := by
  decide

/-- Claim C3, amended: the round trip `unescape(escape_like_source(s)) = s`
holds exactly for strings with no newline and no double quote (printable
characters only): on those, `escape_like_source` is the identity and so is
the decoder; a newline or double quote in `s` is escaped to a
two-character sequence that the decoder keeps literal. -/
theorem c3_roundtrip_amended (s : Str) :
    (∀ c ∈ s, 0x20 ≤ c.toNat ∧ c ≠ '"') →
      escapeLikeSource s = s ∧
      decodeJsEscapedString (escapeLikeSource s) = some s := by
  intro h
  have hesc : escapeLikeSource s = s := by
    induction s with
    | nil => rfl
    | cons c r ih =>
      have hc := h c (by simp)
      have hn : ¬ c = '\n' := by
        intro hcn
        subst hcn
        exact absurd hc.1 (by decide)
      have hq : ¬ c = '"' := hc.2
      simp only [escapeLikeSource, if_neg hn, if_neg hq]
      rw [ih (fun c hc => h c (List.mem_cons_of_mem _ hc))]
  refine ⟨hesc, ?_⟩
  rw [hesc]
  exact decode_id_of_noControl (fun c hc => (h c hc).1)

/-- Witness for C3 (amended) at the concrete string `setpos 1`. -/
theorem c3_roundtrip_amended_witness :
    escapeLikeSource ['s', 'e', 't', 'p', 'o', 's', ' ', '1'] =
        ['s', 'e', 't', 'p', 'o', 's', ' ', '1'] ∧
    decodeJsEscapedString (escapeLikeSource ['s', 'e', 't', 'p', 'o', 's', ' ', '1']) =
        some ['s', 'e', 't', 'p', 'o', 's', ' ', '1'] :=
  c3_roundtrip_amended ['s', 'e', 't', 'p', 'o', 's', ' ', '1'] (by decide)

/-! ### Error propagation of the job pipeline (claims C1 and C2) -/

theorem runAll_ok_iff (jobs : List (Except Str NadeResult)) (vals : List NadeResult) :
    runAll jobs = Except.ok vals ↔ jobs = vals.map Except.ok := by
  induction jobs generalizing vals with
  | nil => cases vals <;> simp [runAll]
  | cons j rest ih =>
    cases j with
    | error e => cases vals <;> simp [runAll]
    | ok v =>
      cases h : runAll rest with
      | error e =>
        cases vals with
        | nil => simp [runAll, h]
        | cons w ws =>
          simp only [runAll, h, List.map, List.cons.injEq, Except.ok.injEq]
          constructor
          · intro hb; exact Except.noConfusion hb
          · rintro ⟨h1, h2⟩
            have h3 := (ih ws).2 h2
            rw [h3] at h
            exact Except.noConfusion h
      | ok vs =>
        cases vals with
        | nil =>
          simp only [runAll, h, List.map]
          constructor
          · intro hb
            injection hb with hb
            exact List.noConfusion hb
          · intro hb; exact List.noConfusion hb
        | cons w ws =>
          simp only [runAll, h, List.map, List.cons.injEq, Except.ok.injEq]
          constructor
          · rintro ⟨h1, h2⟩
            refine ⟨h1, (ih ws).1 ?_⟩
            rw [h, h2]
          · rintro ⟨h1, h2⟩
            have h3 := (ih ws).2 h2
            rw [h3] at h
            injection h with h4
            exact ⟨h1, h4.symm⟩

theorem runAll_error_of_mem {jobs : List (Except Str NadeResult)} {e : Str}
    (h : Except.error e ∈ jobs) : ∃ e', runAll jobs = Except.error e' := by
  induction jobs with
  | nil => cases h
  | cons j rest ih =>
    cases j with
    | error e2 => exact ⟨e2, rfl⟩
    | ok v =>
      have hm : Except.error e ∈ rest := by
        rcases List.mem_cons.1 h with h1 | h1
        · cases h1
        · exact h1
      obtain ⟨e', he'⟩ := ih hm
      exact ⟨e', by simp [runAll, he']⟩

/-- Counterexample to claim C1 as stated: a run of two jobs where the
second job's detail fetch rejects.  The claim says the failure is
recorded as an in-band error field and the aggregated result sequence is
still produced; in the code the job body has no try/catch, so the
`Promise.all` aggregation rejects with the fetch error and no result
sequence (and no output artifact) is produced. -/
theorem c1_fetch_failure_counterexample :
    runAll
      [nadeJob demoBase demoMap (Except.ok c1GoodHtml) demoNadeA,
       nadeJob demoBase demoMap (Except.error c1HttpErr) demoNadeB] =
      Except.error c1HttpErr := by
  rfl

/-- Claim C1, amended: a rejected detail fetch is not converted into an
in-band error — the job's promise rejects with it, and since `main` does
no per-job catch, the whole `Promise.all` rejects and the run aborts
without producing the aggregated sequence or artifact.  Sibling jobs are
not cancelled (the scheduler is outcome-independent; see the scheduler
theorems), but their results are discarded.  Only an unknown-type record
yields an in-band error result, produced without any fetch. -/
theorem c1_fetch_failure_amended :
    (∀ (jobs : List (Except Str NadeResult)) (e : Str),
        Except.error e ∈ jobs → ∃ e', runAll jobs = Except.error e')
    ∧ (∀ (jobs : List (Except Str NadeResult)) (vals : List NadeResult),
        runAll jobs = Except.ok vals ↔ jobs = vals.map Except.ok)
    ∧ (∀ (baseUrl mapSlug : Str) (nade : Nade) (e : Str),
        (typeToPath nade.type).isSome →
        nadeJob baseUrl mapSlug (Except.error e) nade = Except.error e)
    ∧ (∀ (baseUrl mapSlug : Str) (fetched : Except Str Str) (nade : Nade),
        typeToPath nade.type = none →
        nadeJob baseUrl mapSlug fetched nade =
          Except.ok ⟨nade, none, some (unknownTypeMsg nade.type), none⟩) := by
  refine ⟨fun jobs e h => runAll_error_of_mem h, runAll_ok_iff, ?_, ?_⟩
  · intro baseUrl mapSlug nade e h
    unfold nadeJob
    obtain ⟨p, hp⟩ := Option.isSome_iff_exists.1 h
    rw [hp]
  · intro baseUrl mapSlug fetched nade h
    unfold nadeJob
    rw [h]

/-- Witness for the amended C1 at a concrete two-job run. -/
theorem c1_fetch_failure_witness :
    ∃ e', runAll
        [nadeJob demoBase demoMap (Except.ok c1GoodHtml) demoNadeA,
         nadeJob demoBase demoMap (Except.error c1HttpErr) demoNadeB] =
        Except.error e' :=
  c1_fetch_failure_amended.1 _ c1HttpErr
    (by right; rw [show nadeJob demoBase demoMap (Except.error c1HttpErr) demoNadeB =
          Except.error c1HttpErr from rfl]; exact List.mem_singleton.2 rfl)

/-- Counterexample to claim C2 as stated: a detail page whose captured
console fragment contains a raw newline.  The claim says the record
degrades to "no console text" and the pipeline continues; in the code
`decodeJsEscapedString` throws, nothing catches it, and the job's
aggregation rejects — the run aborts. -/
theorem c2_decode_failure_counterexample :
    extractConsoleFromNadeHtml c2BadHtml = Except.error jsonParseErrorMsg ∧
    runAll [nadeJob demoBase demoMap (Except.ok c2BadHtml) demoNadeA] =
      Except.error jsonParseErrorMsg := by
  exact ⟨rfl, rfl⟩

/-- Claim C2, amended: only an *absent* console match degrades to "no
console text" (an `ok none` result, the pipeline continuing); a captured
fragment that fails to decode (it contains a raw control character) makes
`decodeJsEscapedString` throw, the job body has no catch, so the
exception propagates through the job and rejects the whole aggregation:
the decode failure aborts the run. -/
theorem c2_decode_failure_amended :
    (∀ html, scanFirst consoleAt html = none →
        extractConsoleFromNadeHtml html = Except.ok none)
    ∧ (∀ html frag, scanFirst consoleAt html = some frag →
        (∃ c ∈ frag, c.toNat < 0x20) →
        extractConsoleFromNadeHtml html = Except.error jsonParseErrorMsg)
    ∧ (∀ (baseUrl mapSlug html : Str) (nade : Nade) (e : Str),
        (typeToPath nade.type).isSome →
        extractConsoleFromNadeHtml html = Except.error e →
        nadeJob baseUrl mapSlug (Except.ok html) nade = Except.error e)
    ∧ (∀ (rest : List (Except Str NadeResult)) (e : Str),
        runAll (Except.error e :: rest) = Except.error e) := by
  refine ⟨?_, ?_, ?_, fun rest e => rfl⟩
  · intro html h
    unfold extractConsoleFromNadeHtml
    rw [h]
  · intro html frag h hc
    unfold extractConsoleFromNadeHtml
    rw [h]
    show (match decodeJsEscapedString frag with
          | some v => Except.ok (some v)
          | none => Except.error jsonParseErrorMsg) = Except.error jsonParseErrorMsg
    rw [decode_none_of_control hc]
  · intro baseUrl mapSlug html nade e hsome hex
    unfold nadeJob
    obtain ⟨p, hp⟩ := Option.isSome_iff_exists.1 hsome
    rw [hp]
    show (match extractConsoleFromNadeHtml html with
          | Except.error e => Except.error e
          | Except.ok consoleText =>
            Except.ok (NadeResult.mk nade consoleText none
              (some (mkNadeUrl baseUrl mapSlug p nade.slug)))) = Except.error e
    rw [hex]

/-- Witness for the amended C2 at the concrete bad page. -/
theorem c2_decode_failure_witness :
    extractConsoleFromNadeHtml c2BadHtml = Except.error jsonParseErrorMsg :=
  c2_decode_failure_amended.2.1 c2BadHtml ['a', '\n', 'b'] rfl
    ⟨'\n', by decide, by decide⟩


/-! ### Scheduler theorems (claims C4 and C5) -/

namespace PLimit

theorem next_running_le (limit : Nat) (s : SchedState)
    (h : s.running.length ≤ limit) : (next limit s).running.length ≤ limit := by
  unfold next
  by_cases hl : limit ≤ s.running.length
  · rw [if_pos hl]; exact h
  · rw [if_neg hl]
    cases hq : s.queue with
    | nil => exact h
    | cons j q => simp only [List.length_append, List.length_cons, List.length_nil]; omega

theorem submit_running_le (limit : Nat) (s : SchedState) (j : Nat)
    (h : s.running.length ≤ limit) : (submit limit s j).running.length ≤ limit :=
  next_running_le limit _ h

theorem eraseIdx_length_lt {l : List Nat} {k : Nat} (hk : k < l.length) :
    (l.eraseIdx k).length = l.length - 1 := by
  have := List.length_eraseIdx_add_one (l := l) (i := k) hk
  omega

theorem get?_some_lt {l : List Nat} {k : Nat} {a : Nat} (h : l.get? k = some a) :
    k < l.length := by
  by_contra hk
  rw [List.get?_eq_none.2 (Nat.le_of_not_lt hk)] at h
  cases h

theorem settle_running_le (limit : Nat) (s : SchedState) (k : Nat)
    (h : s.running.length ≤ limit) : (settle limit s k).running.length ≤ limit := by
  unfold settle
  cases hg : s.running.get? k with
  | none => exact h
  | some j =>
    apply next_running_le
    have hk := get?_some_lt hg
    have := eraseIdx_length_lt hk
    simp only [this]
    omega

theorem scanl_invariant {α β : Type} (f : β → α → β) (P : β → Prop)
    (hstep : ∀ s a, P s → P (f s a)) :
    ∀ (l : List α) (b : β), P b → ∀ s ∈ List.scanl f b l, P s := by
  intro l
  induction l with
  | nil =>
    intro b hb s hs
    rw [List.scanl_nil] at hs
    rw [List.mem_singleton.1 hs]
    exact hb
  | cons a l ih =>
    intro b hb s hs
    rw [List.scanl_cons] at hs
    rcases List.mem_append.1 hs with h | h
    · rw [List.mem_singleton.1 h]; exact hb
    · exact ih (f b a) (hstep b a hb) s h

theorem foldl_invariant {α β : Type} (f : β → α → β) (P : β → Prop)
    (hstep : ∀ s a, P s → P (f s a)) :
    ∀ (l : List α) (b : β), P b → P (l.foldl f b) := by
  intro l
  induction l with
  | nil => intro b hb; exact hb
  | cons a l ih => intro b hb; exact ih (f b a) (hstep b a hb)

/-- Claim C5: with a configured limit of at least 1, the number of
simultaneously running (admitted, unsettled) jobs never exceeds the limit
at any state of the trace; and each settlement removes the settled job
from the running set, decrementing the active count, and immediately
admits the head of the queue if the queue is nonempty (so the active
count is restored to its previous value, and drops by one only when the
queue is empty). -/
theorem c5_concurrency_ceiling (limit n : Nat) (choices : List Nat)
    (hlim : 1 ≤ limit) :
    (∀ s ∈ schedTrace limit n choices, s.running.length ≤ limit)
    ∧ (∀ (s : SchedState) (k j : Nat), s.running.get? k = some j →
        s.running.length ≤ limit →
        (settle limit s k).settled = s.settled ++ [j]
        ∧ ((settle limit s k).running.length =
            if s.queue.isEmpty then s.running.length - 1 else s.running.length)
        ∧ (∀ j' q', s.queue = j' :: q' →
            (settle limit s k).running = s.running.eraseIdx k ++ [j']
            ∧ (settle limit s k).queue = q')) := by
  constructor
  · intro s hs
    unfold schedTrace at hs
    rcases List.mem_append.1 hs with h | h
    · exact scanl_invariant (submit limit) (fun s => s.running.length ≤ limit)
        (fun s a hP => submit_running_le limit s a hP) (List.range n) ⟨[], [], []⟩
        (by simp) s h
    · refine scanl_invariant (settle limit) (fun s => s.running.length ≤ limit)
        (fun s a hP => settle_running_le limit s a hP) choices (submitAll limit n) ?_ s h
      exact foldl_invariant (submit limit) (fun s => s.running.length ≤ limit)
        (fun s a hP => submit_running_le limit s a hP) (List.range n) ⟨[], [], []⟩
        (by simp)
  · intro s k j hg hle
    have hk : k < s.running.length := get?_some_lt hg
    have hlen : (s.running.eraseIdx k).length = s.running.length - 1 :=
      eraseIdx_length_lt hk
    have hcond : ¬ limit ≤ (s.running.eraseIdx k).length := by
      rw [hlen]; omega
    have hstep : settle limit s k =
        next limit ⟨s.queue, s.running.eraseIdx k, s.settled ++ [j]⟩ := by
      simp only [settle, hg]
    rw [hstep]
    unfold next
    simp only
    rw [if_neg hcond]
    cases hq : s.queue with
    | nil =>
      refine ⟨rfl, ?_, ?_⟩
      · show (s.running.eraseIdx k).length = if ([] : List Nat).isEmpty then
            s.running.length - 1 else s.running.length
        simp [hlen]
      · intro j' q' hq'; cases hq'
    | cons j' q' =>
      refine ⟨rfl, ?_, ?_⟩
      · show (s.running.eraseIdx k ++ [j']).length = if (j' :: q').isEmpty then
            s.running.length - 1 else s.running.length
        simp only [List.isEmpty_cons, List.length_append, List.length_cons,
          List.length_nil, hlen, Bool.false_eq_true, if_false]
        omega
      · intro j2 q2 hq'
        injection hq' with h1 h2
        subst h1; subst h2
        exact ⟨rfl, rfl⟩

/-- Witness for C5 at limit 2, four jobs and a concrete settlement
schedule: the final trace state respects the ceiling. -/
theorem c5_concurrency_ceiling_witness :
    (runSched 2 4 [0, 1, 0, 0]).running.length ≤ 2 :=
  (c5_concurrency_ceiling 2 4 [0, 1, 0, 0] (by decide)).1
    (runSched 2 4 [0, 1, 0, 0]) (by decide)

theorem perm_get_eraseIdx {l : List Nat} {k : Nat} {a : Nat}
    (h : l.get? k = some a) : l.Perm (a :: l.eraseIdx k) := by
  induction l generalizing k with
  | nil => cases h
  | cons b t ih =>
    cases k with
    | zero =>
      injection h with h
      rw [h]
      exact List.Perm.refl _
    | succ k =>
      have hp := ih (k := k) h
      have h1 : (b :: t).Perm (b :: a :: t.eraseIdx k) := hp.cons b
      have h2 : (b :: a :: t.eraseIdx k).Perm (a :: b :: t.eraseIdx k) :=
        List.Perm.swap a b _
      exact h1.trans h2

theorem next_allJobs_perm (limit : Nat) (s : SchedState) :
    (allJobs (next limit s)).Perm (allJobs s) := by
  unfold next
  by_cases hl : limit ≤ s.running.length
  · rw [if_pos hl]
  · rw [if_neg hl]
    cases hq : s.queue with
    | nil => exact List.Perm.refl _
    | cons j q =>
      simp only [allJobs, hq]
      have h1 : q ++ (s.running ++ [j]) ++ s.settled
          = (q ++ s.running) ++ j :: s.settled := by simp
      rw [h1]
      have h2 : ((q ++ s.running) ++ j :: s.settled).Perm
          (j :: ((q ++ s.running) ++ s.settled)) := List.perm_middle
      refine h2.trans ?_
      exact List.Perm.refl _

theorem submit_allJobs_perm (limit : Nat) (s : SchedState) (j : Nat) :
    (allJobs (submit limit s j)).Perm (allJobs s ++ [j]) := by
  unfold submit
  refine (next_allJobs_perm limit _).trans ?_
  simp only [allJobs]
  have h1 : s.queue ++ [j] ++ s.running ++ s.settled
      = s.queue ++ ([j] ++ (s.running ++ s.settled)) := by simp
  have h2 : s.queue ++ s.running ++ s.settled ++ [j]
      = s.queue ++ ((s.running ++ s.settled) ++ [j]) := by simp
  rw [h1, h2]
  exact List.Perm.append_left _ List.perm_append_comm

theorem settle_allJobs_perm (limit : Nat) (s : SchedState) (k : Nat) :
    (allJobs (settle limit s k)).Perm (allJobs s) := by
  unfold settle
  cases hg : s.running.get? k with
  | none => exact List.Perm.refl _
  | some j =>
    refine (next_allJobs_perm limit _).trans ?_
    simp only [allJobs]
    have h1 : s.queue ++ s.running.eraseIdx k ++ (s.settled ++ [j])
        = s.queue ++ (s.running.eraseIdx k ++ (s.settled ++ [j])) := by simp
    have h2 : s.queue ++ s.running ++ s.settled
        = s.queue ++ (s.running ++ s.settled) := by simp
    rw [h1, h2]
    refine List.Perm.append_left _ ?_
    have p1 : (s.running.eraseIdx k ++ (s.settled ++ [j])).Perm
        (s.running.eraseIdx k ++ ([j] ++ s.settled)) :=
      List.Perm.append_left _ List.perm_append_comm
    have e1 : s.running.eraseIdx k ++ ([j] ++ s.settled)
        = (s.running.eraseIdx k ++ [j]) ++ s.settled := by simp
    rw [e1] at p1
    have p2 : ((s.running.eraseIdx k ++ [j]) ++ s.settled).Perm (s.running ++ s.settled) :=
      List.Perm.append_right _
        ((List.perm_append_comm).trans (perm_get_eraseIdx hg).symm)
    exact p1.trans p2

theorem submitAll_allJobs_perm (limit n : Nat) :
    (allJobs (submitAll limit n)).Perm (List.range n) := by
  have key : ∀ (l : List Nat) (s : SchedState),
      (allJobs (l.foldl (submit limit) s)).Perm (allJobs s ++ l) := by
    intro l
    induction l with
    | nil => intro s; simp [List.Perm.refl]
    | cons a l ih =>
      intro s
      refine (ih (submit limit s a)).trans ?_
      have hr := List.Perm.append_right l (submit_allJobs_perm limit s a)
      refine hr.trans ?_
      have e : (allJobs s ++ [a]) ++ l = allJobs s ++ a :: l := by simp
      rw [e]
  have h := key (List.range n) ⟨[], [], []⟩
  simpa [allJobs] using h

theorem runSched_allJobs_perm (limit n : Nat) (choices : List Nat) :
    (allJobs (runSched limit n choices)).Perm (List.range n) := by
  have key : ∀ (l : List Nat) (s : SchedState),
      (allJobs (l.foldl (settle limit) s)).Perm (allJobs s) := by
    intro l
    induction l with
    | nil => intro s; exact List.Perm.refl _
    | cons a l ih =>
      intro s
      exact (ih (settle limit s a)).trans (settle_allJobs_perm limit s a)
  exact (key choices (submitAll limit n)).trans (submitAll_allJobs_perm limit n)

theorem lookup_map_outcome {α : Type} (order : List Nat) (f : Nat → α) (i : Nat)
    (h : i ∈ order) :
    List.lookup i (order.map fun j => (j, f j)) = some (f i) := by
  induction order with
  | nil => cases h
  | cons j rest ih =>
    by_cases hij : i = j
    · subst hij
      simp [List.lookup]
    · have hmem : i ∈ rest := by
        rcases List.mem_cons.1 h with h1 | h1
        · exact absurd h1 hij
        · exact h1
      have hbeq : (i == j) = false := beq_eq_false_iff_ne.2 hij
      simp only [List.map, List.lookup, hbeq]
      exact ih hmem

end PLimit

open PLimit in
/-- Claim C4: whenever every submitted job has settled, slot `i` of the
aggregated result sequence carries the outcome of job `i`, for every
settlement order (`choices` is arbitrary); and the renderer consumes the
aggregated results in exactly that order, so records are rendered in the
order of the deduplicated summary sequence. -/
theorem c4_order_of_results {α : Type} (limit n : Nat) (choices : List Nat)
    (f : Nat → α) (hall : (runSched limit n choices).settled.length = n) :
    aggregate (runSched limit n choices).settled f n =
      (List.range n).map (fun i => some (f i)) := by
  have hperm := runSched_allJobs_perm limit n choices
  set fin := runSched limit n choices with hfin
  have hlen : (allJobs fin).length = n := by
    rw [List.Perm.length_eq hperm, List.length_range]
  have hqr : fin.queue.length + fin.running.length = 0 := by
    have h2 : fin.queue.length + (fin.running.length + fin.settled.length) = n := by
      simpa [allJobs] using hlen
    omega
  have hq : fin.queue = [] := List.length_eq_zero.1 (by omega)
  have hr : fin.running = [] := List.length_eq_zero.1 (by omega)
  have hsettled : fin.settled.Perm (List.range n) := by
    have h3 := hperm
    rw [show allJobs fin = fin.settled from by simp [allJobs, hq, hr]] at h3
    exact h3
  unfold aggregate
  refine List.map_congr_left ?_
  intro i hi
  have : i ∈ fin.settled := (List.Perm.mem_iff hsettled).2 hi
  exact lookup_map_outcome fin.settled f i this

open PLimit in
/-- Witness for C4: limit 2, three jobs, settled in the schedule
`[1, 0, 0]` (job 1 finishes before job 0), outcomes `i * 10`. -/
theorem c4_order_of_results_witness :
    aggregate (runSched 2 3 [1, 0, 0]).settled (fun i => i * 10) 3 =
      (List.range 3).map (fun i => some (i * 10)) :=
  c4_order_of_results 2 3 [1, 0, 0] (fun i => i * 10) (by decide)

/-! ### Deduplication theorems (claim C6) -/

theorem dedupeGo_filter (k : Str) :
    ∀ (l : List Nade) (seen : List Str),
      (dedupeGo seen l).filter (fun n => decide (dedupeKey n = k)) =
        if k ∈ seen then []
        else (l.filter (fun n => decide (dedupeKey n = k))).take 1 := by
  intro l
  induction l with
  | nil => intro seen; by_cases h : k ∈ seen <;> simp [dedupeGo, h]
  | cons n rest ih =>
    intro seen
    by_cases hn : dedupeKey n ∈ seen
    · rw [dedupeGo, if_pos hn, ih seen]
      by_cases hk : k ∈ seen
      · rw [if_pos hk, if_pos hk]
      · rw [if_neg hk, if_neg hk]
        have hne : ¬ dedupeKey n = k := fun he => hk (he ▸ hn)
        simp [List.filter, hne]
    · rw [dedupeGo, if_neg hn]
      by_cases hnk : dedupeKey n = k
      · subst hnk
        rw [List.filter_cons_of_pos (by simp)]
        rw [ih (dedupeKey n :: seen), if_pos (List.mem_cons_self _ _)]
        by_cases hk : dedupeKey n ∈ seen
        · exact absurd hk hn
        · rw [if_neg hk, List.filter_cons_of_pos (by simp)]
          simp
      · rw [List.filter_cons_of_neg (by simpa using hnk)]
        rw [ih (dedupeKey n :: seen)]
        by_cases hk : k ∈ seen
        · rw [if_pos (List.mem_cons_of_mem _ hk), if_pos hk]
        · have : ¬ k ∈ dedupeKey n :: seen := by
            intro hc
            rcases List.mem_cons.1 hc with hc | hc
            · exact hnk hc.symm
            · exact hk hc
          rw [if_neg this, if_neg hk, List.filter_cons_of_neg (by simpa using hnk)]

theorem dedupeGo_nodup_and_fresh :
    ∀ (l : List Nade) (seen : List Str),
      ((dedupeGo seen l).map dedupeKey).Nodup
      ∧ ∀ n ∈ dedupeGo seen l, dedupeKey n ∉ seen := by
  intro l
  induction l with
  | nil => intro seen; exact ⟨List.nodup_nil, by simp [dedupeGo]⟩
  | cons n rest ih =>
    intro seen
    by_cases hn : dedupeKey n ∈ seen
    · rw [dedupeGo, if_pos hn]; exact ih seen
    · rw [dedupeGo, if_neg hn]
      obtain ⟨hnodup, hfresh⟩ := ih (dedupeKey n :: seen)
      refine ⟨?_, ?_⟩
      · rw [List.map_cons, List.nodup_cons]
        refine ⟨?_, hnodup⟩
        intro hmem
        obtain ⟨m, hm, hkm⟩ := List.mem_map.1 hmem
        exact hfresh m hm (hkm ▸ List.mem_cons_self _ _)
      · intro m hm
        rcases List.mem_cons.1 hm with h | h
        · rw [h]; exact hn
        · intro hc
          exact hfresh m h (List.mem_cons_of_mem _ hc)

theorem dedupeGo_id_of_nodup :
    ∀ (l : List Nade) (seen : List Str),
      (l.map dedupeKey).Nodup → (∀ n ∈ l, dedupeKey n ∉ seen) →
      dedupeGo seen l = l := by
  intro l
  induction l with
  | nil => intro seen _ _; rfl
  | cons n rest ih =>
    intro seen hnodup hfresh
    rw [dedupeGo, if_neg (hfresh n (List.mem_cons_self _ _))]
    rw [List.map_cons, List.nodup_cons] at hnodup
    refine congrArg (n :: ·) (ih _ hnodup.2 ?_)
    intro m hm
    intro hc
    rcases List.mem_cons.1 hc with h | h
    · exact hnodup.1 (h ▸ List.mem_map_of_mem dedupeKey hm)
    · exact hfresh m (List.mem_cons_of_mem _ hm) h

theorem dedupe_nodup (l : List Nade) : ((dedupe l).map dedupeKey).Nodup :=
  (dedupeGo_nodup_and_fresh l []).1

theorem dedupe_eq_self_iff (l : List Nade) :
    dedupe l = l ↔ (l.map dedupeKey).Nodup := by
  constructor
  · intro h
    have := dedupe_nodup l
    rw [h] at this
    exact this
  · intro h
    exact dedupeGo_id_of_nodup l [] h (by simp)

/-- Claim C6: the deduplication pass keeps exactly the first record with
each composite key `type ++ ":" ++ slug` (the filtered records with key
`k` are the first record of the input with key `k`), its output keys are
pairwise distinct (in particular, so are the keys of the summaries
reaching the scheduler after extraction), it is idempotent, and it is the
identity exactly on inputs whose keys are already unique. -/
theorem c6_dedupe_first_seen :
    (∀ (l : List Nade) (k : Str),
      (dedupe l).filter (fun n => decide (dedupeKey n = k)) =
        (l.filter (fun n => decide (dedupeKey n = k))).take 1)
    ∧ (∀ l : List Nade, ((dedupe l).map dedupeKey).Nodup)
    ∧ (∀ l : List Nade, dedupe (dedupe l) = dedupe l)
    ∧ (∀ l : List Nade, dedupe l = l ↔ (l.map dedupeKey).Nodup) := by
  refine ⟨?_, dedupe_nodup, ?_, dedupe_eq_self_iff⟩
  · intro l k
    have h := dedupeGo_filter k l []
    simpa [dedupe] using h
  · intro l
    exact (dedupe_eq_self_iff (dedupe l)).2 (dedupe_nodup l)

/-- Witness for C6 at a concrete list with a duplicated key: the second
record with key `smoke:a` is dropped, the first kept. -/
theorem c6_dedupe_first_seen_witness :
    dedupe [demoNadeA, demoNadeB, { demoNadeA with id := ['n', 'x'] }] =
      [demoNadeA, demoNadeB] := by
  have h1 := c6_dedupe_first_seen.2.2.1
      [demoNadeA, demoNadeB, { demoNadeA with id := ['n', 'x'] }]
  decide

/-! ### Renderer theorems (claims C7 and C8) -/

theorem isEmpty_false_of_ne_nil {l : Str} (h : l ≠ []) : l.isEmpty = false := by
  cases l with
  | nil => exact absurd rfl h
  | cons c r => rfl

theorem teamDisp_ne_nil (team : Option Str) : (teamDisp team).isEmpty = false := by
  cases team with
  | none => rfl
  | some u =>
    by_cases hu : u.isEmpty = true
    · simp [teamDisp, hu]
    · cases u with
      | nil => exact absurd rfl hu
      | cons c r => simp [teamDisp]

theorem titlesOrSlug_ne_nil (titleFrom titleTo slug : Str) (hs : slug ≠ []) :
    (titlesOrSlug titleFrom titleTo slug).isEmpty = false := by
  unfold titlesOrSlug
  by_cases hc : (!titleFrom.isEmpty && !titleTo.isEmpty) = true
  · rw [if_pos hc]
    cases titleFrom with
    | nil => simp at hc
    | cons c r => rfl
  · rw [if_neg hc]
    exact isEmpty_false_of_ne_nil hs

theorem labelOf_eq (r : NadeResult) (ht : r.nade.type ≠ []) (hs : r.nade.slug ≠ []) :
    labelOf r =
      r.nade.type ++ sepBar ++ teamDisp r.nade.team ++ sepBar ++
        titlesOrSlug (sanitizeComment r.nade.titleFrom) (sanitizeComment r.nade.titleTo)
          r.nade.slug := by
  unfold labelOf
  rw [List.filter_cons_of_pos (by simp [isEmpty_false_of_ne_nil ht]),
    List.filter_cons_of_pos (by simp [teamDisp_ne_nil]),
    List.filter_cons_of_pos (by simp [titlesOrSlug_ne_nil _ _ _ hs]),
    List.filter_nil]
  show r.nade.type ++ sepBar ++
      (teamDisp r.nade.team ++ sepBar ++
        titlesOrSlug (sanitizeComment r.nade.titleFrom) (sanitizeComment r.nade.titleTo)
          r.nade.slug) = _
  simp [List.append_assoc]

theorem renderAll_count_aux (results : List NadeResult) :
    ∀ (acc : List Str × Nat),
      (results.foldl
        (fun acc r =>
          let br := renderRecord r
          (acc.1 ++ br.1, acc.2 + (if br.2 then 1 else 0))) acc).2 =
      acc.2 + results.countP (fun r => consoleFalsy r.console) := by
  induction results with
  | nil => intro acc; simp
  | cons r rest ih =>
    intro acc
    rw [List.foldl_cons, ih, List.countP_cons]
    have hflag : (renderRecord r).2 = consoleFalsy r.console := by
      unfold renderRecord
      by_cases hc : consoleFalsy r.console = true
      · rw [if_pos hc, hc]
      · rw [if_neg hc]
        simp only [Bool.not_eq_true] at hc
        rw [hc]
    by_cases hc : consoleFalsy r.console = true
    · simp [hflag, hc]
      omega
    · simp only [Bool.not_eq_true] at hc
      simp [hflag, hc]

/-- Claim C7: every record block begins with the single-line label made
of the type, the uppercased team (or `ANY` when the team is absent), and
either `titleFrom -> titleTo` (when both sanitized titles are nonempty)
or the raw slug; when the console text is absent (null or empty) the
block contains the `MISSING_CONSOLE` marker line, the record's missing
flag is set, and the reported missing total counts exactly those
records. -/
theorem c7_record_label_and_missing :
    (∀ r : NadeResult, r.nade.type ≠ [] → r.nade.slug ≠ [] →
      (renderRecord r).1.head? =
        some (commentPre ++
          (r.nade.type ++ sepBar ++ teamDisp r.nade.team ++ sepBar ++
            titlesOrSlug (sanitizeComment r.nade.titleFrom)
              (sanitizeComment r.nade.titleTo) r.nade.slug))
      ∧ (consoleFalsy r.console = true →
          missingLine ∈ (renderRecord r).1 ∧ (renderRecord r).2 = true))
    ∧ (∀ (srcLabel : Str) (results : List NadeResult),
        (renderAll srcLabel results).2 =
          results.countP (fun r => consoleFalsy r.console)) := by
  constructor
  · intro r ht hs
    constructor
    · unfold renderRecord
      by_cases hc : consoleFalsy r.console = true
      · rw [if_pos hc]
        simp [labelOf_eq r ht hs]
      · rw [if_neg hc]
        simp [labelOf_eq r ht hs]
    · intro hc
      unfold renderRecord
      rw [if_pos hc]
      refine ⟨?_, rfl⟩
      simp
  · intro srcLabel results
    unfold renderAll
    rw [renderAll_count_aux]
    simp

/-- Witness for C7 at a concrete record with an absent console. -/
theorem c7_record_label_and_missing_witness :
    (renderRecord ⟨demoNadeB, none, none, none⟩).1.head? =
      some (commentPre ++
        (['s', 'm', 'o', 'k', 'e'] ++ sepBar ++ teamDisp none ++ sepBar ++
          titlesOrSlug (sanitizeComment none) (sanitizeComment none) ['c'])) ∧
    missingLine ∈ (renderRecord ⟨demoNadeB, none, none, none⟩).1 :=
  ⟨((c7_record_label_and_missing.1 ⟨demoNadeB, none, none, none⟩ (by decide)
      (by decide)).1),
   ((c7_record_label_and_missing.1 ⟨demoNadeB, none, none, none⟩ (by decide)
      (by decide)).2 (by decide)).1⟩

theorem stripLitCI_split :
    ∀ (p t : Str) (pr : Str × Str), stripLitCI p t = some pr → t = pr.1 ++ pr.2 := by
  intro p
  induction p with
  | nil =>
    intro t pr h
    unfold stripLitCI at h
    injection h with h
    rw [← h]
    rfl
  | cons a ps ih =>
    intro t pr h
    cases t with
    | nil => cases h
    | cons c cs =>
      unfold stripLitCI at h
      by_cases hcl : c.toLower = a.toLower
      · rw [if_pos hcl] at h
        cases hrec : stripLitCI ps cs with
        | none => rw [hrec] at h; cases h
        | some pr2 =>
          rw [hrec] at h
          injection h with h
          rw [← h]
          have := ih cs pr2 hrec
          simp [this]
      · rw [if_neg hcl] at h; cases h

theorem matchPairAt_split {t m : Str} (h : matchPairAt t = some m) :
    ∃ rest, t = m ++ rest := by
  unfold matchPairAt at h
  cases h1 : stripLitCI setposLit t with
  | none => rw [h1] at h; cases h
  | some pr1 =>
    obtain ⟨c1, r1⟩ := pr1
    rw [h1] at h
    simp only at h
    by_cases he1 : (r1.takeWhile class1).isEmpty = true
    · rw [if_pos he1] at h; cases h
    · rw [if_neg he1] at h
      cases h2 : stripLitCI setangLit (r1.dropWhile class1) with
      | none => rw [h2] at h; cases h
      | some pr2 =>
        obtain ⟨c2, r3⟩ := pr2
        rw [h2] at h
        simp only at h
        by_cases he2 : (r3.takeWhile class2).isEmpty = true
        · rw [if_pos he2] at h; cases h
        · rw [if_neg he2] at h
          injection h with h
          refine ⟨r3.dropWhile class2, ?_⟩
          have e1 : t = c1 ++ r1 := stripLitCI_split _ _ _ h1
          have e2 : r1.dropWhile class1 = c2 ++ r3 := stripLitCI_split _ _ _ h2
          have e3 : r1 = r1.takeWhile class1 ++ r1.dropWhile class1 :=
            (List.takeWhile_append_dropWhile (p := class1) (l := r1)).symm
          have e4 : r3 = r3.takeWhile class2 ++ r3.dropWhile class2 :=
            (List.takeWhile_append_dropWhile (p := class2) (l := r3)).symm
          rw [← h]
          rw [e1]
          conv_lhs => rw [e3, e2]
          conv_lhs => rw [e4]
          simp [List.append_assoc]

theorem scanFirst_eq_some {α : Type} (f : Str → Option α) :
    ∀ (s : Str) (x : α), scanFirst f s = some x →
      ∃ i, f (s.drop i) = some x ∧ ∀ j < i, f (s.drop j) = none := by
  intro s
  induction s with
  | nil =>
    intro x h
    refine ⟨0, h, ?_⟩
    intro j hj
    omega
  | cons c rest ih =>
    intro x h
    unfold scanFirst at h
    cases h1 : f (c :: rest) with
    | some y =>
      rw [h1] at h
      injection h with h
      refine ⟨0, ?_, ?_⟩
      · rw [List.drop_zero, h1, h]
      · intro j hj; omega
    | none =>
      rw [h1] at h
      obtain ⟨i, hi, hj⟩ := ih x h
      refine ⟨i + 1, hi, ?_⟩
      intro j hjlt
      cases j with
      | zero => simpa using h1
      | succ j => exact hj j (by omega)

theorem scanFirst_eq_none {α : Type} (f : Str → Option α) :
    ∀ (s : Str), scanFirst f s = none → ∀ i, f (s.drop i) = none := by
  intro s
  induction s with
  | nil =>
    intro h i
    simpa using h
  | cons c rest ih =>
    intro h i
    unfold scanFirst at h
    cases h1 : f (c :: rest) with
    | some y => rw [h1] at h; cases h
    | none =>
      rw [h1] at h
      cases i with
      | zero => simpa using h1
      | succ i => exact ih h i

/-- Claim C8: for a present, nonempty console text `c`, the record block
is the label line, the optional url line, then the command line and a
blank line, where the command line is the first match of the narrowing
pattern when one exists (the match starts at the leftmost possible
position and is a prefix of the remaining text there) and the full
trimmed console text verbatim when no position matches. -/
theorem c8_command_line :
    (∀ (r : NadeResult) (c : Str), r.console = some c → c.isEmpty = false →
      (renderRecord r).1 =
        (commentPre ++ labelOf r) :: (urlLinesOf r.url ++ [cmdLineOf c, []]))
    ∧ (∀ c m : Str, firstPairMatch c = some m →
        cmdLineOf c = m
        ∧ ∃ i, matchPairAt (c.drop i) = some m
            ∧ (∀ j < i, matchPairAt (c.drop j) = none)
            ∧ ∃ rest, c.drop i = m ++ rest)
    ∧ (∀ c : Str, firstPairMatch c = none →
        cmdLineOf c = trimJs c ∧ ∀ i, matchPairAt (c.drop i) = none) := by
  refine ⟨?_, ?_, ?_⟩
  · intro r c hc hne
    simp only [renderRecord, hc]
    rw [show consoleFalsy (some c) = false from hne]
    simp [Option.getD]
  · intro c m h
    refine ⟨by unfold cmdLineOf; rw [h], ?_⟩
    obtain ⟨i, hi, hj⟩ := scanFirst_eq_some matchPairAt c m h
    exact ⟨i, hi, hj, matchPairAt_split hi⟩
  · intro c h
    refine ⟨by unfold cmdLineOf; rw [h], scanFirst_eq_none matchPairAt c h⟩

/-- Witness for C8 at a concrete record whose console text contains a
narrowable pair with surrounding noise. -/
theorem c8_command_line_witness :
    (renderRecord ⟨demoNadeA,
        some ['s', 'e', 't', 'p', 'o', 's', ' ', '1', ';',
              's', 'e', 't', 'a', 'n', 'g', ' ', '2', '\\', 'n', 'x'],
        none, none⟩).1 =
      (commentPre ++ labelOf ⟨demoNadeA,
          some ['s', 'e', 't', 'p', 'o', 's', ' ', '1', ';',
                's', 'e', 't', 'a', 'n', 'g', ' ', '2', '\\', 'n', 'x'],
          none, none⟩) ::
        (urlLinesOf none ++
          [cmdLineOf ['s', 'e', 't', 'p', 'o', 's', ' ', '1', ';',
                      's', 'e', 't', 'a', 'n', 'g', ' ', '2', '\\', 'n', 'x'], []]) :=
  c8_command_line.1
    ⟨demoNadeA,
      some ['s', 'e', 't', 'p', 'o', 's', ' ', '1', ';',
            's', 'e', 't', 'a', 'n', 'g', ' ', '2', '\\', 'n', 'x'],
      none, none⟩
    ['s', 'e', 't', 'p', 'o', 's', ' ', '1', ';',
     's', 'e', 't', 'a', 'n', 'g', ' ', '2', '\\', 'n', 'x'] rfl (by decide)

/-! ### Extractor theorems (claim C9) -/

theorem stripLit_self_append : ∀ (p r : Str), stripLit p (p ++ r) = some r := by
  intro p
  induction p with
  | nil => intro r; rfl
  | cons a ps ih => intro r; simp [stripLit, ih r]

theorem stripLit_bs_head_ne {ps : Str} {c : Char} {cs : Str} (h : c ≠ '\\') :
    stripLit ('\\' :: ps) (c :: cs) = none := by
  simp [stripLit, h]

theorem stripLit_some_eq : ∀ (p s r : Str), stripLit p s = some r → s = p ++ r := by
  intro p
  induction p with
  | nil =>
    intro s r h
    injection h with h
  | cons a ps ih =>
    intro s r h
    cases s with
    | nil => cases h
    | cons c cs =>
      unfold stripLit at h
      by_cases hc : c = a
      · rw [if_pos hc] at h
        rw [hc, List.cons_append]
        exact congrArg _ (ih cs r h)
      · rw [if_neg hc] at h; cases h

theorem stripLit_head_mismatch {p : Char} {ps : Str} {a : Char} {l : Str}
    (h : a ≠ p) : stripLit (p :: ps) (a :: l) = none := by
  simp [stripLit, h]

theorem stripLit_cross : ∀ (pat s t : Str), s ≠ [] → (∀ c ∈ s, c ≠ '\\') →
    '\\' ∈ pat →
    (∀ k, 0 < k → k ≤ pat.length → (∀ c ∈ pat.take k, c ≠ '\\') →
      stripLit (pat.drop k) t = none) →
    stripLit pat (s ++ t) = none := by
  intro pat s
  induction s generalizing pat with
  | nil => intro t hne; exact absurd rfl hne
  | cons a s' ih =>
    intro t _ hs hb H
    cases pat with
    | nil => cases hb
    | cons p ps =>
      show stripLit (p :: ps) (a :: (s' ++ t)) = none
      by_cases hap : a = p
      · rw [stripLit, if_pos hap]
        have hpbs : p ≠ '\\' := hap ▸ hs a (List.mem_cons_self _ _)
        cases s' with
        | nil =>
          have h1 := H 1 (by omega) (by simp) (by
            intro c hc
            simp only [List.take_succ_cons, List.take_zero, List.mem_singleton] at hc
            rw [hc]; exact hpbs)
          simpa using h1
        | cons b s'' =>
          refine ih ps t (by simp) (fun c hc => hs c (List.mem_cons_of_mem _ hc)) ?_ ?_
          · rcases List.mem_cons.1 hb with h | h
            · exact absurd h.symm hpbs
            · exact h
          · intro k hk0 hkle hfree
            have := H (k + 1) (by omega) (by simpa using hkle) (by
              intro c hc
              simp only [List.take_succ_cons, List.mem_cons] at hc
              rcases hc with hc | hc
              · rw [hc]; exact hpbs
              · exact hfree c hc)
            simpa using this
      · exact stripLit_head_mismatch hap

theorem mem_take_of_get {l : List Char} {i k : Nat} {a : Char}
    (h : l.get? i = some a) (hik : i < k) : a ∈ l.take k := by
  have h2 : (l.take k).get? i = some a := by rw [List.get?_take hik, h]
  exact List.get?_mem h2

theorem get_mem_of_get? {l : List Char} {i : Nat} {a : Char}
    (h : l.get? i = some a) : a ∈ l := List.get?_mem h

/-- A span-crossing site: a pattern whose first backslash is at position
`kmax` cannot match a backslash-free content region followed by a rest
that rejects every viable pattern remainder. -/
theorem cross_site (pat' : Str) (kmax : Nat) (hget : pat'.get? kmax = some '\\')
    (s t : Str) (hne : s ≠ []) (hs : ∀ c ∈ s, c ≠ '\\')
    (H2 : ∀ k, 0 < k → k ≤ kmax → stripLit (pat'.drop k) t = none) :
    stripLit pat' (s ++ t) = none := by
  refine stripLit_cross pat' s t hne hs (get_mem_of_get? hget) ?_
  intro k hk0 hkle hfree
  have hkmax : k ≤ kmax := by
    by_contra hgt
    push_neg at hgt
    exact hfree '\\' (mem_take_of_get hget hgt) rfl
  exact H2 k hk0 hkmax

theorem scanFirst_cons_none {α : Type} (f : Str → Option α) {c : Char} {l : Str}
    (h : f (c :: l) = none) : scanFirst f (c :: l) = scanFirst f l := by
  simp [scanFirst, h]

theorem scanFirst_some_head {α : Type} (f : Str → Option α) {l : Str} {x : α}
    (h : f l = some x) : scanFirst f l = some x := by
  cases l with
  | nil => simpa [scanFirst] using h
  | cons c rest => simp [scanFirst, h]

theorem scanFirst_append_none {α : Type} (f : Str → Option α) :
    ∀ (a t : Str), (∀ i < a.length, f (a.drop i ++ t) = none) →
      scanFirst f (a ++ t) = scanFirst f t := by
  intro a
  induction a with
  | nil => intro t _; rfl
  | cons c a' ih =>
    intro t h
    have h0 : f (c :: (a' ++ t)) = none := by
      have := h 0 (by simp)
      simpa using this
    rw [List.cons_append, scanFirst_cons_none f h0]
    refine ih t ?_
    intro i hi
    have := h (i + 1) (by simpa using Nat.succ_lt_succ hi)
    simpa using this

theorem scanFirst_content {α : Type} (f : Str → Option α)
    (hf : ∀ (c : Char) (l : Str), c ≠ '\\' → f (c :: l) = none) :
    ∀ (s t : Str), (∀ c ∈ s, c ≠ '\\') → scanFirst f (s ++ t) = scanFirst f t := by
  intro s
  induction s with
  | nil => intro t _; rfl
  | cons c s' ih =>
    intro t hs
    rw [List.cons_append,
      scanFirst_cons_none f (hf c _ (hs c (List.mem_cons_self _ _)))]
    exact ih t (fun c hc => hs c (List.mem_cons_of_mem _ hc))

theorem findIdx_cons_not {needle : Str} {c : Char} {l : Str}
    (h : leadsWithB needle (c :: l) = false) :
    findIdx needle (c :: l) = (findIdx needle l).map (· + 1) := by
  simp [findIdx, h]

theorem findIdx_some_of_leads {needle s : Str} (h : leadsWithB needle s = true) :
    findIdx needle s = some 0 := by
  cases s with
  | nil => simp [findIdx, h]
  | cons c rest => simp [findIdx, h]

theorem leadsWithB_bs_head_false {c : Char} {l : Str} (h : c ≠ '\\') :
    leadsWithB idNeedle (c :: l) = false := by
  have : stripLit idNeedle (c :: l) = none := by
    show stripLit (idPat ++ nadePre) (c :: l) = none
    exact stripLit_bs_head_ne h
  simp [leadsWithB, this]

theorem findIdx_none_content : ∀ (s t : Str), (∀ c ∈ s, c ≠ '\\') →
    findIdx idNeedle t = none → findIdx idNeedle (s ++ t) = none := by
  intro s
  induction s with
  | nil => intro t _ ht; exact ht
  | cons c s' ih =>
    intro t hs ht
    rw [List.cons_append,
      findIdx_cons_not (leadsWithB_bs_head_false (hs c (List.mem_cons_self _ _))),
      ih t (fun c hc => hs c (List.mem_cons_of_mem _ hc)) ht]
    rfl

theorem findIdx_none_concrete : ∀ (a t : Str),
    (∀ i < a.length, leadsWithB idNeedle (a.drop i ++ t) = false) →
    findIdx idNeedle t = none → findIdx idNeedle (a ++ t) = none := by
  intro a
  induction a with
  | nil => intro t _ ht; exact ht
  | cons c a' ih =>
    intro t h ht
    have h0 : leadsWithB idNeedle (c :: (a' ++ t)) = false := by
      have := h 0 (by simp)
      simpa using this
    rw [List.cons_append, findIdx_cons_not h0]
    rw [ih t ?_ ht]
    · rfl
    · intro i hi
      have := h (i + 1) (by simpa using Nat.succ_lt_succ hi)
      simpa using this

theorem findIdx_some_content : ∀ (s t : Str), (∀ c ∈ s, c ≠ '\\') →
    leadsWithB idNeedle t = true → findIdx idNeedle (s ++ t) = some s.length := by
  intro s
  induction s with
  | nil => intro t _ ht; exact findIdx_some_of_leads ht
  | cons c s' ih =>
    intro t hs ht
    rw [List.cons_append,
      findIdx_cons_not (leadsWithB_bs_head_false (hs c (List.mem_cons_self _ _))),
      ih t (fun c hc => hs c (List.mem_cons_of_mem _ hc)) ht]
    rfl

theorem collectStartsAux_none {html : Str} (base : Nat)
    (h : findIdx idNeedle html = none) : collectStartsAux html base = [] := by
  unfold collectStartsAux
  split
  · rfl
  · rename_i i hi
    rw [h] at hi
    cases hi

theorem collectStartsAux_some {html : Str} (base : Nat) {i : Nat}
    (h : findIdx idNeedle html = some i) :
    collectStartsAux html base =
      (base + i) ::
        collectStartsAux (html.drop (i + idNeedle.length))
          (base + i + idNeedle.length) := by
  conv_lhs => unfold collectStartsAux
  split
  · rename_i hnone
    rw [h] at hnone
    cases hnone
  · rename_i j hj
    rw [h] at hj
    injection hj with hj
    subst hj
    rfl

theorem dedupeGo_mem_of_mem : ∀ (l : List Nade) (seen : List Str) (n : Nade),
    n ∈ dedupeGo seen l → n ∈ l := by
  intro l
  induction l with
  | nil => intro seen n h; cases h
  | cons m rest ih =>
    intro seen n h
    rw [dedupeGo] at h
    by_cases hm : dedupeKey m ∈ seen
    · rw [if_pos hm] at h
      exact List.mem_cons_of_mem _ (ih seen n h)
    · rw [if_neg hm] at h
      rcases List.mem_cons.1 h with h1 | h1
      · rw [h1]; exact List.mem_cons_self _ _
      · exact List.mem_cons_of_mem _ (ih _ n h1)

theorem c9_part_a {html : Str} (h : findIdx idNeedle html = none) :
    extractNadesFromMapHtml html = [] := by
  unfold extractNadesFromMapHtml collectStarts
  rw [collectStartsAux_none 0 h]
  rfl

theorem c9_part_b {html : Str} {n : Nade} (h : n ∈ extractNadesFromMapHtml html) :
    ∃ chunk ∈ chunksOf html (collectStarts html), parseChunk chunk = some n := by
  unfold extractNadesFromMapHtml dedupe at h
  have h2 := dedupeGo_mem_of_mem _ [] n h
  obtain ⟨chunk, hc, hp⟩ := List.mem_filterMap.1 h2
  exact ⟨chunk, hc, hp⟩

theorem notBQ_ne_bs {c : Char} (h : notBQ c = true) : c ≠ '\\' := by
  intro he
  rw [he] at h
  simp [notBQ] at h

theorem teamAt_head_ne {c : Char} {l : Str} (h : c ≠ '\\') : teamAt (c :: l) = none := by
  simp [teamAt, teamFieldPat, stripLit, h]

theorem teamAt_skip_needle (T : Str) :
    ∀ i < idNeedle.length, teamAt (idNeedle.drop i ++ T) = none := by
  intro i hi
  simp only [idNeedle, idPat, nadePre, List.length_append, List.length_cons,
    List.length_nil] at hi
  interval_cases i <;>
    simp [teamAt, teamFieldPat, idNeedle, idPat, nadePre, stripLit]

theorem teamAt_cross (slug Y : Str) (hne : slug ≠ []) (hs : ∀ c ∈ slug, c ≠ '\\') :
    teamAt ('\\' :: '"' :: (slug ++ (typeSepPat ++ Y))) = none := by
  unfold teamAt
  have h2 : stripLit teamFieldPat ('\\' :: '"' :: (slug ++ (typeSepPat ++ Y)))
      = stripLit ['t', 'e', 'a', 'm', '\\', '"', ':', '\\', '"']
          (slug ++ (typeSepPat ++ Y)) := by
    simp [teamFieldPat, stripLit]
  rw [h2, cross_site ['t', 'e', 'a', 'm', '\\', '"', ':', '\\', '"'] 4 rfl _ _ hne hs ?_]
  intro k hk0 hk4
  interval_cases k <;> simp [typeSepPat, typeFieldPat, stripLit]

theorem teamAt_skip_slugSep (slug Y : Str) (hne : slug ≠ []) (hs : ∀ c ∈ slug, c ≠ '\\') :
    ∀ i < slugSepPat.length,
      teamAt (slugSepPat.drop i ++ (slug ++ (typeSepPat ++ Y))) = none := by
  intro i hi
  simp only [slugSepPat, List.length_cons, List.length_nil] at hi
  interval_cases i <;>
    first
      | exact teamAt_cross slug Y hne hs
      | simp [teamAt, teamFieldPat, slugSepPat, stripLit]

theorem typeAt_head_ne {c : Char} {l : Str} (h : c ≠ '\\') : typeAt (c :: l) = none := by
  simp [typeAt, typeFieldPat, stripLit, h]

theorem titleFromAt_head_ne {c : Char} {l : Str} (h : c ≠ '\\') :
    titleFromAt (c :: l) = none := by
  simp [titleFromAt, titleFromPat, stripLit, h]

theorem titleToAt_head_ne {c : Char} {l : Str} (h : c ≠ '\\') :
    titleToAt (c :: l) = none := by
  simp [titleToAt, titleToPat, stripLit, h]

theorem typeAt_skip_needle (T : Str) :
    ∀ i < idNeedle.length, typeAt (idNeedle.drop i ++ T) = none := by
  intro i hi
  simp only [idNeedle, idPat, nadePre, List.length_append, List.length_cons,
    List.length_nil] at hi
  interval_cases i <;>
    simp [typeAt, typeFieldPat, idNeedle, idPat, nadePre, stripLit]

theorem titleFromAt_skip_needle (T : Str) :
    ∀ i < idNeedle.length, titleFromAt (idNeedle.drop i ++ T) = none := by
  intro i hi
  simp only [idNeedle, idPat, nadePre, List.length_append, List.length_cons,
    List.length_nil] at hi
  interval_cases i <;>
    simp [titleFromAt, titleFromPat, idNeedle, idPat, nadePre, stripLit]

theorem titleToAt_skip_needle (T : Str) :
    ∀ i < idNeedle.length, titleToAt (idNeedle.drop i ++ T) = none := by
  intro i hi
  simp only [idNeedle, idPat, nadePre, List.length_append, List.length_cons,
    List.length_nil] at hi
  interval_cases i <;>
    simp [titleToAt, titleToPat, idNeedle, idPat, nadePre, stripLit]

theorem typeAt_cross (slug Y : Str) (hne : slug ≠ []) (hs : ∀ c ∈ slug, c ≠ '\\') :
    typeAt ('\\' :: '"' :: (slug ++ (typeSepPat ++ Y))) = none := by
  unfold typeAt
  have h2 : stripLit typeFieldPat ('\\' :: '"' :: (slug ++ (typeSepPat ++ Y)))
      = stripLit ['t', 'y', 'p', 'e', '\\', '"', ':', '\\', '"']
          (slug ++ (typeSepPat ++ Y)) := by
    simp [typeFieldPat, stripLit]
  rw [h2, cross_site ['t', 'y', 'p', 'e', '\\', '"', ':', '\\', '"'] 4 rfl _ _ hne hs ?_]
  intro k hk0 hk4
  interval_cases k <;> simp [typeSepPat, typeFieldPat, stripLit]

theorem titleFromAt_cross (slug Y : Str) (hne : slug ≠ []) (hs : ∀ c ∈ slug, c ≠ '\\') :
    titleFromAt ('\\' :: '"' :: (slug ++ (typeSepPat ++ Y))) = none := by
  unfold titleFromAt
  have h2 : stripLit titleFromPat ('\\' :: '"' :: (slug ++ (typeSepPat ++ Y)))
      = stripLit ['t', 'i', 't', 'l', 'e', 'F', 'r', 'o', 'm', '\\', '"', ':', '\\', '"']
          (slug ++ (typeSepPat ++ Y)) := by
    simp [titleFromPat, stripLit]
  rw [h2, cross_site ['t', 'i', 't', 'l', 'e', 'F', 'r', 'o', 'm', '\\', '"', ':', '\\', '"']
    9 rfl _ _ hne hs ?_]
  intro k hk0 hk9
  interval_cases k <;> simp [typeSepPat, typeFieldPat, stripLit]

theorem titleToAt_cross (slug Y : Str) (hne : slug ≠ []) (hs : ∀ c ∈ slug, c ≠ '\\') :
    titleToAt ('\\' :: '"' :: (slug ++ (typeSepPat ++ Y))) = none := by
  unfold titleToAt
  have h2 : stripLit titleToPat ('\\' :: '"' :: (slug ++ (typeSepPat ++ Y)))
      = stripLit ['t', 'i', 't', 'l', 'e', 'T', 'o', '\\', '"', ':', '\\', '"']
          (slug ++ (typeSepPat ++ Y)) := by
    simp [titleToPat, stripLit]
  rw [h2, cross_site ['t', 'i', 't', 'l', 'e', 'T', 'o', '\\', '"', ':', '\\', '"']
    7 rfl _ _ hne hs ?_]
  intro k hk0 hk7
  interval_cases k <;> simp [typeSepPat, typeFieldPat, stripLit]

theorem typeAt_skip_slugSep (slug Y : Str) (hne : slug ≠ []) (hs : ∀ c ∈ slug, c ≠ '\\') :
    ∀ i < slugSepPat.length,
      typeAt (slugSepPat.drop i ++ (slug ++ (typeSepPat ++ Y))) = none := by
  intro i hi
  simp only [slugSepPat, List.length_cons, List.length_nil] at hi
  interval_cases i <;>
    first
      | exact typeAt_cross slug Y hne hs
      | simp [typeAt, typeFieldPat, slugSepPat, stripLit]

theorem titleFromAt_skip_slugSep (slug Y : Str) (hne : slug ≠ [])
    (hs : ∀ c ∈ slug, c ≠ '\\') :
    ∀ i < slugSepPat.length,
      titleFromAt (slugSepPat.drop i ++ (slug ++ (typeSepPat ++ Y))) = none := by
  intro i hi
  simp only [slugSepPat, List.length_cons, List.length_nil] at hi
  interval_cases i <;>
    first
      | exact titleFromAt_cross slug Y hne hs
      | simp [titleFromAt, titleFromPat, slugSepPat, stripLit]

theorem titleToAt_skip_slugSep (slug Y : Str) (hne : slug ≠ [])
    (hs : ∀ c ∈ slug, c ≠ '\\') :
    ∀ i < slugSepPat.length,
      titleToAt (slugSepPat.drop i ++ (slug ++ (typeSepPat ++ Y))) = none := by
  intro i hi
  simp only [slugSepPat, List.length_cons, List.length_nil] at hi
  interval_cases i <;>
    first
      | exact titleToAt_cross slug Y hne hs
      | simp [titleToAt, titleToPat, slugSepPat, stripLit]

/-- Scanning any of the field matchers across the anchor, the id suffix,
the slug separator and the slug reduces to scanning the remaining tail. -/
theorem scan_skip_record {α : Type} (f : Str → Option α)
    (hf : ∀ (c : Char) (l : Str), c ≠ '\\' → f (c :: l) = none)
    (idSuf slug Y : Str) (hid : ∀ c ∈ idSuf, c ≠ '\\')
    (hs : ∀ c ∈ slug, c ≠ '\\')
    (hneedle : ∀ (T : Str), ∀ i < idNeedle.length, f (idNeedle.drop i ++ T) = none)
    (hsep : ∀ i < slugSepPat.length,
      f (slugSepPat.drop i ++ (slug ++ (typeSepPat ++ Y))) = none) :
    scanFirst f (idNeedle ++ (idSuf ++ (slugSepPat ++ (slug ++ (typeSepPat ++ Y))))) =
      scanFirst f (typeSepPat ++ Y) := by
  rw [scanFirst_append_none f idNeedle _ (hneedle _)]
  rw [scanFirst_content f hf idSuf _ hid]
  rw [scanFirst_append_none f slugSepPat _ hsep]
  rw [scanFirst_content f hf slug _ hs]

theorem scan_teamAt_mkRecord (idSuf slug ty : Str) (hid : ∀ c ∈ idSuf, c ≠ '\\')
    (hslugne : slug ≠ []) (hs : ∀ c ∈ slug, c ≠ '\\') (hty : ty ∈ typeAlts) :
    scanFirst teamAt (mkRecord idSuf slug ty) = none := by
  show scanFirst teamAt
      (idNeedle ++ (idSuf ++ (slugSepPat ++ (slug ++ (typeSepPat ++ (ty ++ bqStr)))))) = none
  rw [scan_skip_record teamAt (fun c l h => teamAt_head_ne h) idSuf slug (ty ++ bqStr)
    hid hs teamAt_skip_needle (teamAt_skip_slugSep slug _ hslugne hs)]
  simp only [typeAlts, List.mem_cons, List.not_mem_nil, or_false] at hty
  rcases hty with h | h | h | h <;> (subst h; decide)

theorem scan_titleFromAt_mkRecord (idSuf slug ty : Str) (hid : ∀ c ∈ idSuf, c ≠ '\\')
    (hslugne : slug ≠ []) (hs : ∀ c ∈ slug, c ≠ '\\') (hty : ty ∈ typeAlts) :
    scanFirst titleFromAt (mkRecord idSuf slug ty) = none := by
  show scanFirst titleFromAt
      (idNeedle ++ (idSuf ++ (slugSepPat ++ (slug ++ (typeSepPat ++ (ty ++ bqStr)))))) = none
  rw [scan_skip_record titleFromAt (fun c l h => titleFromAt_head_ne h) idSuf slug
    (ty ++ bqStr) hid hs titleFromAt_skip_needle
    (titleFromAt_skip_slugSep slug _ hslugne hs)]
  simp only [typeAlts, List.mem_cons, List.not_mem_nil, or_false] at hty
  rcases hty with h | h | h | h <;> (subst h; decide)

theorem scan_titleToAt_mkRecord (idSuf slug ty : Str) (hid : ∀ c ∈ idSuf, c ≠ '\\')
    (hslugne : slug ≠ []) (hs : ∀ c ∈ slug, c ≠ '\\') (hty : ty ∈ typeAlts) :
    scanFirst titleToAt (mkRecord idSuf slug ty) = none := by
  show scanFirst titleToAt
      (idNeedle ++ (idSuf ++ (slugSepPat ++ (slug ++ (typeSepPat ++ (ty ++ bqStr)))))) = none
  rw [scan_skip_record titleToAt (fun c l h => titleToAt_head_ne h) idSuf slug
    (ty ++ bqStr) hid hs titleToAt_skip_needle
    (titleToAt_skip_slugSep slug _ hslugne hs)]
  simp only [typeAlts, List.mem_cons, List.not_mem_nil, or_false] at hty
  rcases hty with h | h | h | h <;> (subst h; decide)

theorem scan_typeAt_mkRecord (idSuf slug ty : Str) (hid : ∀ c ∈ idSuf, c ≠ '\\')
    (hslugne : slug ≠ []) (hs : ∀ c ∈ slug, c ≠ '\\') (hty : ty ∈ typeAlts) :
    scanFirst typeAt (mkRecord idSuf slug ty) = some ty := by
  show scanFirst typeAt
      (idNeedle ++ (idSuf ++ (slugSepPat ++ (slug ++ (typeSepPat ++ (ty ++ bqStr)))))) =
    some ty
  rw [scan_skip_record typeAt (fun c l h => typeAt_head_ne h) idSuf slug (ty ++ bqStr)
    hid hs typeAt_skip_needle (typeAt_skip_slugSep slug _ hslugne hs)]
  simp only [typeAlts, List.mem_cons, List.not_mem_nil, or_false] at hty
  rcases hty with h | h | h | h <;> (subst h; decide)

theorem takeWhile_append_of_all {p : Char → Bool} :
    ∀ (s t : Str), (∀ c ∈ s, p c = true) →
      (s ++ t).takeWhile p = s ++ t.takeWhile p := by
  intro s
  induction s with
  | nil => intro t _; rfl
  | cons c s' ih =>
    intro t hs
    simp only [List.cons_append]
    rw [List.takeWhile_cons, hs c (List.mem_cons_self _ _)]
    simp only [if_true]
    rw [ih t (fun c hc => hs c (List.mem_cons_of_mem _ hc))]

theorem dropWhile_append_of_all {p : Char → Bool} :
    ∀ (s t : Str), (∀ c ∈ s, p c = true) →
      (s ++ t).dropWhile p = t.dropWhile p := by
  intro s
  induction s with
  | nil => intro t _; rfl
  | cons c s' ih =>
    intro t hs
    simp only [List.cons_append]
    rw [List.dropWhile_cons, hs c (List.mem_cons_self _ _)]
    simp only [if_true]
    rw [ih t (fun c hc => hs c (List.mem_cons_of_mem _ hc))]

theorem runThen_at_content (content : Str) (rest : Str) (hne : content ≠ [])
    (hq : ∀ c ∈ content, notBQ c = true)
    (hrest : rest.takeWhile notBQ = [] ∧ leadsWithB bqStr rest = true) :
    runThen (content ++ rest) = some content := by
  unfold runThen
  rw [takeWhile_append_of_all content rest hq, dropWhile_append_of_all content rest hq,
    hrest.1, List.append_nil]
  rw [if_neg (by simp [isEmpty_false_of_ne_nil hne])]
  have hdw : rest.dropWhile notBQ = rest := by
    cases rest with
    | nil => rfl
    | cons c r =>
      rw [List.dropWhile_cons]
      have : notBQ c = false := by
        by_contra hcb
        simp only [Bool.not_eq_false] at hcb
        rw [List.takeWhile_cons, hcb] at hrest
        exact List.noConfusion hrest.1
      rw [this]
      simp
  rw [hdw, if_pos hrest.2]

theorem idAt_mkRecord (idSuf slug ty : Str) (hidne : idSuf ≠ [])
    (hidq : ∀ c ∈ idSuf, notBQ c = true) :
    idAt (mkRecord idSuf slug ty) = some (nadePre ++ idSuf) := by
  have h1 : stripLit idPat (mkRecord idSuf slug ty)
      = some (nadePre ++
          (idSuf ++ (slugSepPat ++ (slug ++ (typeSepPat ++ (ty ++ bqStr)))))) := by
    show stripLit idPat ((idPat ++ nadePre) ++ _) = _
    rw [List.append_assoc]
    exact stripLit_self_append idPat _
  have h2 := stripLit_self_append nadePre
      (idSuf ++ (slugSepPat ++ (slug ++ (typeSepPat ++ (ty ++ bqStr)))))
  have h3 : runThen (idSuf ++ (slugSepPat ++ (slug ++ (typeSepPat ++ (ty ++ bqStr)))))
      = some idSuf := by
    refine runThen_at_content idSuf _ hidne hidq ⟨rfl, rfl⟩
  simp only [idAt, h1, h2, h3]

theorem slugAt_mkRecord (idSuf slug ty : Str) (hidne : idSuf ≠ [])
    (hidq : ∀ c ∈ idSuf, notBQ c = true) (hslugne : slug ≠ [])
    (hslugq : ∀ c ∈ slug, notBQ c = true) :
    slugAt (mkRecord idSuf slug ty) = some slug := by
  have h1 : stripLit idPat (mkRecord idSuf slug ty)
      = some (nadePre ++
          (idSuf ++ (slugSepPat ++ (slug ++ (typeSepPat ++ (ty ++ bqStr)))))) := by
    show stripLit idPat ((idPat ++ nadePre) ++ _) = _
    rw [List.append_assoc]
    exact stripLit_self_append idPat _
  have h2 := stripLit_self_append nadePre
      (idSuf ++ (slugSepPat ++ (slug ++ (typeSepPat ++ (ty ++ bqStr)))))
  have htw : (idSuf ++ (slugSepPat ++ (slug ++ (typeSepPat ++ (ty ++ bqStr))))).takeWhile
      notBQ = idSuf := by
    rw [takeWhile_append_of_all idSuf _ hidq]
    rw [show (slugSepPat ++ (slug ++ (typeSepPat ++ (ty ++ bqStr)))).takeWhile notBQ = []
        from rfl]
    exact List.append_nil idSuf
  have hdw : (idSuf ++ (slugSepPat ++ (slug ++ (typeSepPat ++ (ty ++ bqStr))))).dropWhile
      notBQ = slugSepPat ++ (slug ++ (typeSepPat ++ (ty ++ bqStr))) := by
    rw [dropWhile_append_of_all idSuf _ hidq]
    rfl
  have h4 : stripLit slugSepPat (slugSepPat ++ (slug ++ (typeSepPat ++ (ty ++ bqStr))))
      = some (slug ++ (typeSepPat ++ (ty ++ bqStr))) := stripLit_self_append _ _
  have h5 : runThen (slug ++ (typeSepPat ++ (ty ++ bqStr))) = some slug := by
    refine runThen_at_content slug _ hslugne hslugq ⟨rfl, rfl⟩
  simp only [slugAt, h1, h2, htw, hdw, h4, h5,
    isEmpty_false_of_ne_nil hidne, Bool.false_eq_true, if_false]

theorem parseChunk_mkRecord (idSuf slug ty : Str) (hidne : idSuf ≠ [])
    (hidq : ∀ c ∈ idSuf, notBQ c = true) (hslugne : slug ≠ [])
    (hslugq : ∀ c ∈ slug, notBQ c = true) (hty : ty ∈ typeAlts) :
    parseChunk (mkRecord idSuf slug ty) =
      some ⟨nadePre ++ idSuf, slug, ty, none, none, none⟩ := by
  have hidbs : ∀ c ∈ idSuf, c ≠ '\\' := fun c hc => notBQ_ne_bs (hidq c hc)
  have hslugbs : ∀ c ∈ slug, c ≠ '\\' := fun c hc => notBQ_ne_bs (hslugq c hc)
  have e1 := scanFirst_some_head idAt (idAt_mkRecord idSuf slug ty hidne hidq)
  have e2 := scanFirst_some_head slugAt
      (slugAt_mkRecord idSuf slug ty hidne hidq hslugne hslugq)
  have e3 := scan_typeAt_mkRecord idSuf slug ty hidbs hslugne hslugbs hty
  have e4 := scan_teamAt_mkRecord idSuf slug ty hidbs hslugne hslugbs hty
  have e5 := scan_titleFromAt_mkRecord idSuf slug ty hidbs hslugne hslugbs hty
  have e6 := scan_titleToAt_mkRecord idSuf slug ty hidbs hslugne hslugbs hty
  simp only [parseChunk, e1, e2, e3, e4, e5, e6]

theorem leads_idNeedle_cross (slug Y : Str) (hne : slug ≠ [])
    (hs : ∀ c ∈ slug, c ≠ '\\') :
    leadsWithB idNeedle ('\\' :: '"' :: (slug ++ (typeSepPat ++ Y))) = false := by
  have h2 : stripLit idNeedle ('\\' :: '"' :: (slug ++ (typeSepPat ++ Y)))
      = stripLit ['i', 'd', '\\', '"', ':', '\\', '"', 'n', 'a', 'd', 'e', '_']
          (slug ++ (typeSepPat ++ Y)) := by
    simp [idNeedle, idPat, nadePre, stripLit]
  have h3 := cross_site ['i', 'd', '\\', '"', ':', '\\', '"', 'n', 'a', 'd', 'e', '_']
      2 rfl slug (typeSepPat ++ Y) hne hs (by
        intro k hk0 hk2
        interval_cases k <;> simp [typeSepPat, typeFieldPat, stripLit])
  simp [leadsWithB, h2, h3]

theorem findIdx_skip_slugSep (slug Y : Str) (hne : slug ≠ [])
    (hs : ∀ c ∈ slug, c ≠ '\\') :
    ∀ i < slugSepPat.length,
      leadsWithB idNeedle (slugSepPat.drop i ++ (slug ++ (typeSepPat ++ Y))) = false := by
  intro i hi
  simp only [slugSepPat, List.length_cons, List.length_nil] at hi
  interval_cases i <;>
    first
      | exact leads_idNeedle_cross slug Y hne hs
      | simp [leadsWithB, idNeedle, idPat, nadePre, slugSepPat, stripLit]

theorem findIdx_mkRecord_tail (idSuf slug ty : Str)
    (hidbs : ∀ c ∈ idSuf, c ≠ '\\') (hslugne : slug ≠ [])
    (hslugbs : ∀ c ∈ slug, c ≠ '\\') (hty : ty ∈ typeAlts) :
    findIdx idNeedle
      (idSuf ++ (slugSepPat ++ (slug ++ (typeSepPat ++ (ty ++ bqStr))))) = none := by
  refine findIdx_none_content idSuf _ hidbs ?_
  refine findIdx_none_concrete slugSepPat _
    (findIdx_skip_slugSep slug (ty ++ bqStr) hslugne hslugbs) ?_
  refine findIdx_none_content slug _ hslugbs ?_
  simp only [typeAlts, List.mem_cons, List.not_mem_nil, or_false] at hty
  rcases hty with h | h | h | h <;> (subst h; decide)

theorem c9_part_c (pre idSuf slug ty : Str) (hpre : ∀ c ∈ pre, c ≠ '\\')
    (hidne : idSuf ≠ []) (hidq : ∀ c ∈ idSuf, notBQ c = true)
    (hslugne : slug ≠ []) (hslugq : ∀ c ∈ slug, notBQ c = true)
    (hty : ty ∈ typeAlts) :
    extractNadesFromMapHtml (pre ++ mkRecord idSuf slug ty) =
      [⟨nadePre ++ idSuf, slug, ty, none, none, none⟩] := by
  have hidbs : ∀ c ∈ idSuf, c ≠ '\\' := fun c hc => notBQ_ne_bs (hidq c hc)
  have hslugbs : ∀ c ∈ slug, c ≠ '\\' := fun c hc => notBQ_ne_bs (hslugq c hc)
  have hlead : leadsWithB idNeedle (mkRecord idSuf slug ty) = true := by
    have := stripLit_self_append idNeedle
        (idSuf ++ (slugSepPat ++ (slug ++ (typeSepPat ++ (ty ++ bqStr)))))
    simp [leadsWithB, mkRecord, this]
  have hfind : findIdx idNeedle (pre ++ mkRecord idSuf slug ty) = some pre.length :=
    findIdx_some_content pre _ hpre hlead
  have hdrop1 : (pre ++ mkRecord idSuf slug ty).drop (pre.length + idNeedle.length)
      = idSuf ++ (slugSepPat ++ (slug ++ (typeSepPat ++ (ty ++ bqStr)))) := by
    rw [List.drop_append idNeedle.length]
    show (idNeedle ++ _).drop idNeedle.length = _
    rw [List.drop_left]
  have hstarts : collectStarts (pre ++ mkRecord idSuf slug ty) = [pre.length] := by
    unfold collectStarts
    rw [collectStartsAux_some 0 hfind]
    rw [hdrop1, collectStartsAux_none _
      (findIdx_mkRecord_tail idSuf slug ty hidbs hslugne hslugbs hty)]
    simp
  have hdrop2 : (pre ++ mkRecord idSuf slug ty).drop pre.length
      = mkRecord idSuf slug ty := List.drop_left _ _
  unfold extractNadesFromMapHtml
  rw [hstarts]
  show dedupe (List.filterMap parseChunk
      [(pre ++ mkRecord idSuf slug ty).drop pre.length]) = _
  rw [hdrop2]
  rw [show List.filterMap parseChunk [mkRecord idSuf slug ty]
      = [⟨nadePre ++ idSuf, slug, ty, none, none, none⟩] from by
    simp [List.filterMap,
      parseChunk_mkRecord idSuf slug ty hidne hidq hslugne hslugq hty]]
  rfl

/-- Claim C9: (a) a document with no occurrence of the anchor literal
yields an empty record sequence; (b) every extracted record comes from a
span whose field extraction succeeded — a span failing to yield id, slug
and type is silently dropped and contributes nothing; (c) a document
consisting of backslash-free leading noise followed by one well-formed
anchor-bounded record (nonempty backslash-and-quote-free id suffix and
slug, a valid type, no optional fields) yields exactly that one record,
with team, titleFrom and titleTo null. -/
theorem c9_extractor_robustness :
    (∀ html : Str, findIdx idNeedle html = none → extractNadesFromMapHtml html = [])
    ∧ (∀ (html : Str) (n : Nade), n ∈ extractNadesFromMapHtml html →
        ∃ chunk ∈ chunksOf html (collectStarts html), parseChunk chunk = some n)
    ∧ (∀ pre idSuf slug ty : Str, (∀ c ∈ pre, c ≠ '\\') →
        idSuf ≠ [] → (∀ c ∈ idSuf, notBQ c = true) →
        slug ≠ [] → (∀ c ∈ slug, notBQ c = true) →
        ty ∈ typeAlts →
        extractNadesFromMapHtml (pre ++ mkRecord idSuf slug ty) =
          [⟨nadePre ++ idSuf, slug, ty, none, none, none⟩]) :=
  ⟨fun html h => c9_part_a h,
   fun html n h => c9_part_b h,
   c9_part_c⟩

/-- Witness for C9: a document with some leading noise and one
well-formed smoke record yields exactly that record; a document with no
anchor yields nothing. -/
theorem c9_extractor_robustness_witness :
    extractNadesFromMapHtml
        (['x', 'y'] ++ mkRecord ['7'] ['m', 'i', 'd'] ['s', 'm', 'o', 'k', 'e']) =
      [⟨nadePre ++ ['7'], ['m', 'i', 'd'], ['s', 'm', 'o', 'k', 'e'],
        none, none, none⟩] ∧
    extractNadesFromMapHtml ['h', 'e', 'l', 'l', 'o'] = [] :=
  ⟨c9_extractor_robustness.2.2 ['x', 'y'] ['7'] ['m', 'i', 'd'] ['s', 'm', 'o', 'k', 'e']
      (by decide) (by decide) (by decide) (by decide) (by decide) (by decide),
   c9_extractor_robustness.1 ['h', 'e', 'l', 'l', 'o'] (by decide)⟩
